import Mathlib

/-!
PhaseTransition: particle universe, differentiator and pointer-driven modifier

A shallow embedding of `Lib/Universe.cpp`, `Lib/Particle.h` and the
`CallbackHandler` and `UniverseModifier` parts of `Lib/Display.cpp`.

Conventions of the embedding.

* `double` values are exact rationals (`ℚ`): every statement below is a
  statement of exact arithmetic, not of IEEE rounding. The one exception is the
  value that `addNew` converts to `int`: there each operation is rounded to
  binary64, since the rounding decides the integer.
* `std::vector` values are lists; an index is a position in the list.
* Undefined behaviour and failed assertions (an out-of-range `erase`, the
  `assert` of `operator+`, an out-of-range `double` to `int` conversion) are the
  result `none`.
* The process-wide `randomGenerator` is an explicit value that is passed in and
  handed back.
-/

namespace PhaseTransition

/-! ## Vector2D -/

/-- Modelled from the spec: `Lib/Vector2.h` is not among the sources. A pair of
real coordinates with the usual algebraic operations (add, subtract, scalar
multiply and divide, squared magnitude); the default constructor gives the zero
vector. -/
@[ext]
structure Vector2D where
  x : ℚ
  y : ℚ
deriving DecidableEq

namespace Vector2D

instance : Zero Vector2D := ⟨⟨0, 0⟩⟩

instance : Inhabited Vector2D := ⟨0⟩

instance : Add Vector2D := ⟨fun a b => ⟨a.x + b.x, a.y + b.y⟩⟩

instance : Neg Vector2D := ⟨fun a => ⟨-a.x, -a.y⟩⟩

instance : Sub Vector2D := ⟨fun a b => ⟨a.x - b.x, a.y - b.y⟩⟩

/-- Scalar multiple `v * k`. -/
instance : HMul Vector2D ℚ Vector2D := ⟨fun a k => ⟨a.x * k, a.y * k⟩⟩

/-- Scalar quotient `v / k`. -/
instance : HDiv Vector2D ℚ Vector2D := ⟨fun a k => ⟨a.x / k, a.y / k⟩⟩

instance : AddCommGroup Vector2D where
  add_assoc a b c := Vector2D.ext (add_assoc a.x b.x c.x) (add_assoc a.y b.y c.y)
  zero_add a := Vector2D.ext (zero_add a.x) (zero_add a.y)
  add_zero a := Vector2D.ext (add_zero a.x) (add_zero a.y)
  nsmul := nsmulRec
  zsmul := zsmulRec
  neg_add_cancel a := Vector2D.ext (neg_add_cancel a.x) (neg_add_cancel a.y)
  add_comm a b := Vector2D.ext (add_comm a.x b.x) (add_comm a.y b.y)
  sub_eq_add_neg a b := Vector2D.ext (sub_eq_add_neg a.x b.x) (sub_eq_add_neg a.y b.y)

/-- Squared magnitude `x*x + y*y`. -/
def magnitude2 (a : Vector2D) : ℚ := a.x * a.x + a.y * a.y

/-- The test `a.magnitude() < r`. The magnitude is the real square root of
`magnitude2`, which is not rational in general, so the comparison is decided in
its exact equivalent form: `sqrt m < r` holds iff `0 < r` and `m < r * r`. -/
def magnitudeLt (a : Vector2D) (r : ℚ) : Bool := decide (0 < r ∧ a.magnitude2 < r * r)

end Vector2D

/-! ## Particle.h -/

/-- The species of a particle (`class ParticleType`); the sprite surface is not
modelled. -/
structure ParticleType where
  name : String
  mass : ℚ
  radius : ℚ
  exclusionConstant : ℚ
  dipoleMoment : ℚ
  range : ℚ
deriving DecidableEq

instance : Inhabited ParticleType := ⟨⟨"", 0, 0, 0, 0, 0⟩⟩

/-- The dynamic state of a particle (`struct ParticleState`): position and
velocity. The `type` pointer of the header is not modelled: the functions below
take the species from the differentiator's own sequence and never read it. -/
@[ext]
structure ParticleState where
  pos : Vector2D
  v : Vector2D
deriving DecidableEq

namespace ParticleState

instance : Inhabited ParticleState := ⟨⟨0, 0⟩⟩

/-- Constructor `ParticleState(pos)`: zero velocity. -/
def ofPos (pos : Vector2D) : ParticleState := ⟨pos, 0⟩

/-- Modelled from the spec: the bodies of `operator+` and `operator*` of
`ParticleState` are not among the sources. They are the vector-space operations
the integrator needs: component-wise sum of position and velocity. -/
instance : Add ParticleState := ⟨fun a b => ⟨a.pos + b.pos, a.v + b.v⟩⟩

/-- Modelled from the spec: scalar multiple of position and velocity. -/
instance : HMul ParticleState ℚ ParticleState := ⟨fun a k => ⟨a.pos * k, a.v * k⟩⟩

end ParticleState

/-- Modelled from the spec: `ParticleType::derivative`, called by
`UniverseDifferentiator::derivative`, is not among the sources. It converts
(position, velocity, accumulated force) into the phase-space derivative:
`d(pos)/dt = v`, `d(v)/dt = force / mass`. -/
def ParticleType.derivative (t : ParticleType) (s : ParticleState) (force : Vector2D) :
    ParticleState :=
  ⟨s.v, force / t.mass⟩

/-- The pairwise force law `ParticleType::computeForce(other, myState, otherState)`.
Its body is not among the sources; it is a parameter of the differentiator. -/
abbrev PairForce := ParticleType → ParticleType → ParticleState → ParticleState → Vector2D

/-! ## Universe.cpp -/

/-- One point of phase space: the ordered particle states. -/
@[ext]
structure UniverseState where
  state : List ParticleState
deriving DecidableEq

namespace UniverseState

/-- Element-wise sum, `operator+(UniverseState, UniverseState)`. The assertion
`lhs.state.size() == rhs.state.size()` is the guard; the loop pushes
`lhs.state[i] + rhs.state[i]` for every `i`. -/
def add (lhs rhs : UniverseState) : Option UniverseState :=
  if lhs.state.length = rhs.state.length then
    some ⟨List.zipWith (fun a b => a + b) lhs.state rhs.state⟩
  else none

/-- Element-wise scalar multiple, `operator*(UniverseState, double)`. -/
def mul (lhs : UniverseState) (rhs : ℚ) : UniverseState :=
  ⟨lhs.state.map (fun a => a * rhs)⟩

end UniverseState

/-- The right-hand side of the equations of motion: world size, wall
coefficient, gravity and the species of every particle. -/
structure UniverseDifferentiator where
  sizeX : ℚ
  sizeY : ℚ
  forceFactor : ℚ
  gravity : ℚ
  particles : List ParticleType
deriving DecidableEq

namespace UniverseDifferentiator

/-- The soft-wall force for a penetration depth, `boundForce`. -/
def boundForce (d : UniverseDifferentiator) (overEdge : ℚ) : ℚ :=
  if overEdge < 0 then 0
  else d.forceFactor * overEdge * overEdge * overEdge * overEdge

/-- The four wall updates of `derivative` on the force of one particle, in
source order (lines 43-46). -/
def applyBounds (d : UniverseDifferentiator) (s : ParticleState) (f : Vector2D) : Vector2D :=
  let f1 : Vector2D := ⟨f.x + d.boundForce (-s.pos.x), f.y⟩
  let f2 : Vector2D := ⟨f1.x - d.boundForce (s.pos.x - d.sizeX), f1.y⟩
  let f3 : Vector2D := ⟨f2.x, f2.y + d.boundForce (-s.pos.y)⟩
  ⟨f3.x, f3.y - d.boundForce (s.pos.y - d.sizeY)⟩

/-- The gravity update of `derivative` (line 48). -/
def applyGravity (d : UniverseDifferentiator) (t : ParticleType) (f : Vector2D) : Vector2D :=
  ⟨f.x, f.y + d.gravity * t.mass⟩

/-- The value `particles[i].computeForce(particles[j], state.state[i], state.state[j])`. -/
def pairForce (d : UniverseDifferentiator) (cf : PairForce) (state : UniverseState)
    (i j : Nat) : Vector2D :=
  cf (d.particles.getD i default) (d.particles.getD j default)
    (state.state.getD i default) (state.state.getD j default)

/-- The inner loop of `derivative` for a fixed `i`: for `j = 0 .. i-1` the pair
force `f` is added to `forces[i]` and subtracted from `forces[j]`. -/
def pairLoop (d : UniverseDifferentiator) (cf : PairForce) (state : UniverseState)
    (i : Nat) (forces : List Vector2D) : List Vector2D :=
  (List.range i).foldl
    (fun fs j =>
      let f := d.pairForce cf state i j
      (fs.modify (fun a => a + f) i).modify (fun a => a - f) j)
    forces

/-- One pass of the outer loop of `derivative`: the inner loop, then the wall
and gravity updates of `forces[i]`. -/
def forceStep (d : UniverseDifferentiator) (cf : PairForce) (state : UniverseState)
    (forces : List Vector2D) (i : Nat) : List Vector2D :=
  (d.pairLoop cf state i forces).modify
    (fun a => d.applyGravity (d.particles.getD i default)
      (d.applyBounds (state.state.getD i default) a)) i

/-- The force vector `forces` of `derivative` after the first loop (lines 35-49):
one zero entry per species, then one pass per particle. -/
def accumulateForces (d : UniverseDifferentiator) (cf : PairForce) (state : UniverseState) :
    List Vector2D :=
  (List.range d.particles.length).foldl (d.forceStep cf state)
    (List.replicate d.particles.length 0)

/-- The system derivative, `UniverseDifferentiator::derivative`. Reading
`state.state[i]` for every `i < particles.size()` needs at least that many
states; otherwise the read is out of range and the result is `none`. -/
def derivative (d : UniverseDifferentiator) (cf : PairForce) (state : UniverseState) :
    Option UniverseState :=
  if d.particles.length ≤ state.state.length then
    let forces := d.accumulateForces cf state
    some ⟨(List.range d.particles.length).map (fun i =>
      (d.particles.getD i default).derivative (state.state.getD i default) (forces.getD i 0))⟩
  else none

end UniverseDifferentiator

/-- Modelled from the spec: `advanceRungeKutta4` of `Lib/Integrators.h` is not
among the sources. Classical fourth-order Runge-Kutta over the `UniverseState`
operations:
`k1 = f(s)`, `k2 = f(s + k1*(dt/2))`, `k3 = f(s + k2*(dt/2))`, `k4 = f(s + k3*dt)`,
`s' = s + (k1 + k2*2 + k3*2 + k4)*(dt/6)`. -/
def advanceRungeKutta4 (f : UniverseState → Option UniverseState) (s : UniverseState) (dt : ℚ) :
    Option UniverseState := do
  let k1 ← f s
  let s2 ← s.add (k1.mul (dt / 2))
  let k2 ← f s2
  let s3 ← s.add (k2.mul (dt / 2))
  let k3 ← f s3
  let s4 ← s.add (k3.mul dt)
  let k4 ← f s4
  let a ← k1.add (k2.mul 2)
  let b ← a.add (k3.mul 2)
  let c ← b.add k4
  s.add (c.mul (dt / 6))

/-- The simulated world: the differentiator (which owns the species sequence)
and the current state. -/
structure Universe where
  diff : UniverseDifferentiator
  state : UniverseState
deriving DecidableEq

namespace Universe

/-- Constructor `Universe(sizeX, sizeY, forceFactor, gravity)`: no particles. -/
def new (sizeX sizeY forceFactor gravity : ℚ) : Universe :=
  ⟨⟨sizeX, sizeY, forceFactor, gravity, []⟩, ⟨[]⟩⟩

/-- Append a species and a state, `Universe::addParticle`. -/
def addParticle (u : Universe) (pType : ParticleType) (pState : ParticleState) : Universe :=
  { diff := { u.diff with particles := u.diff.particles ++ [pType] },
    state := ⟨u.state.state ++ [pState]⟩ }

/-- Erase both entries at `index`, `Universe::removeParticle`. `vector::erase`
at `begin() + index` is defined only for `0 ≤ index < size()`, in each of the
two vectors. -/
def removeParticle (u : Universe) (index : Int) : Option Universe :=
  if 0 ≤ index ∧ index < u.diff.particles.length ∧ index < u.state.state.length then
    some { diff := { u.diff with particles := u.diff.particles.eraseIdx index.toNat },
           state := ⟨u.state.state.eraseIdx index.toNat⟩ }
  else none

/-- One integration step, `Universe::advance`. -/
def advance (u : Universe) (cf : PairForce) (dT : ℚ) : Option Universe :=
  (advanceRungeKutta4 (u.diff.derivative cf) u.state dT).map (fun s => { u with state := s })

/-- Clamp a position into the world box, `Universe::clampInto`. -/
def clampInto (u : Universe) (pos : Vector2D) : Vector2D :=
  let newX := min (max pos.x 0) u.diff.sizeX
  let newY := min (max pos.y 0) u.diff.sizeY
  ⟨newX, newY⟩

end Universe

/-! ## Display.cpp: pointer state and the interactive modifier -/

/-- The selectable pointer action, `enum class MouseAction`. -/
inductive MouseAction where
  | heat
  | push
  | create
  | spray
deriving DecidableEq

/-- The pointer snapshot, `class CallbackHandler`: the fields that
`Display.cpp` reads and writes (the declaration in `Display.h` is not among the
sources). -/
structure CallbackHandler where
  action : MouseAction
  pos : Vector2D
  leftDown : Bool
  rightDown : Bool
  sign : Int
  radius : ℚ
deriving DecidableEq

/-- OpenCV event code `CV_EVENT_LBUTTONDOWN`. -/
def CV_EVENT_LBUTTONDOWN : Int := 1

/-- OpenCV event code `CV_EVENT_RBUTTONDOWN`. -/
def CV_EVENT_RBUTTONDOWN : Int := 2

/-- OpenCV event code `CV_EVENT_LBUTTONUP`. -/
def CV_EVENT_LBUTTONUP : Int := 4

/-- OpenCV event code `CV_EVENT_RBUTTONUP`. -/
def CV_EVENT_RBUTTONUP : Int := 5

/-- OpenCV event code `CV_EVENT_MOUSEHWHEEL`, the wheel event that the callback
handles. -/
def CV_EVENT_MOUSEHWHEEL : Int := 11

/-- The pointer callback, `CallbackHandler::mouseCallback`, on the handler that
`userdata` points to. The library call `cv::getMouseWheelDelta(flags)` is the
parameter `getMouseWheelDelta`; `pow(1.2, delta)` is the integer power of 1.2. -/
def CallbackHandler.mouseCallback (getMouseWheelDelta : Int → Int) (event x y flags : Int)
    (thisHandler : CallbackHandler) : CallbackHandler :=
  let h1 : CallbackHandler :=
    if x ≠ -1 ∨ y ≠ -1 then { thisHandler with pos := ⟨(x : ℚ), (y : ℚ)⟩ } else thisHandler
  let h2 : CallbackHandler :=
    if event = CV_EVENT_LBUTTONDOWN then { h1 with leftDown := true }
    else if event = CV_EVENT_LBUTTONUP then { h1 with leftDown := false }
    else if event = CV_EVENT_RBUTTONDOWN then { h1 with rightDown := true }
    else if event = CV_EVENT_RBUTTONUP then { h1 with rightDown := false }
    else if event = CV_EVENT_MOUSEHWHEEL then
      let r1 := h1.radius * (1.2 : ℚ) ^ (getMouseWheelDelta flags)
      let r2 := max r1 10
      { h1 with radius := min r2 200 }
    else h1
  { h2 with sign := (if h2.leftDown then 1 else 0) - (if h2.rightDown then 1 else 0) }

/-- One invocation of the pointer callback by the window system: the event
code, the pointer coordinates and the flags. -/
structure MouseEvent where
  event : Int
  x : Int
  y : Int
  flags : Int
deriving DecidableEq

/-- The handler after the window system has delivered the events in order, one
`mouseCallback` call per event. -/
def runCallbacks (getMouseWheelDelta : Int → Int) :
    List MouseEvent → CallbackHandler → CallbackHandler
  | [], handler => handler
  | e :: es, handler =>
    runCallbacks getMouseWheelDelta es
      (handler.mouseCallback getMouseWheelDelta e.event e.x e.y e.flags)

/-- Specification of a physical button, not taken from the code: the button is
held after a sequence of events when its last down-or-up event in the sequence
is a down event; with no such event it is as it was before. -/
def buttonHeldSpec (down up : Int) : Bool → List MouseEvent → Bool
  | held, [] => held
  | held, e :: es =>
    buttonHeldSpec down up (if e.event = down then true else if e.event = up then false else held)
      es

/-- The process-wide `randomGenerator`: the sequence of raw outcomes it will
produce, each in the unit interval for a real engine, and the number of
outcomes consumed so far. One call of a distribution consumes one outcome. -/
structure RandomGenerator where
  outcomes : Nat → ℚ
  used : Nat

/-- Consume one raw outcome. -/
def RandomGenerator.draw (g : RandomGenerator) : ℚ × RandomGenerator :=
  (g.outcomes g.used, { g with used := g.used + 1 })

/-- A call `std::bernoulli_distribution(prob)(randomGenerator)`: success when
the raw outcome is below `prob`. -/
def bernoulli (prob : ℚ) (g : RandomGenerator) : Bool × RandomGenerator :=
  (decide ((g.draw).1 < prob), (g.draw).2)

/-- The library functions of `addNew` whose values are not rational: the
quantile maps of `phiDistr` (uniform on `[0, 2π)`) and of `rDistr` (piecewise
linear on `[0, upper]`), and `cos`, `sin`. They are parameters of the model. -/
structure Sampling where
  phiDistr : ℚ → ℚ
  rDistr : ℚ → ℚ → ℚ
  cos : ℚ → ℚ
  sin : ℚ → ℚ

/-- Round a rational to the nearest integer, ties to the even integer. -/
def roundHalfEven (x : ℚ) : Int :=
  let f : Int := ⌊x⌋
  if x - f < 1 / 2 then f
  else if 1 / 2 < x - f then f + 1
  else if f % 2 = 0 then f else f + 1

/-- The binary64 value of a real result: round to nearest, ties to even, with
a 53-bit significand. For `2^e ≤ |q| < 2^(e+1)` the spacing of the doubles is
`2^(e-52)`. Overflow to infinity and gradual underflow are not modelled. -/
def roundToDouble (q : ℚ) : ℚ :=
  if q = 0 then 0
  else (roundHalfEven (q / (2 : ℚ) ^ (Int.log 2 |q| - 52)) : ℚ) * (2 : ℚ) ^ (Int.log 2 |q| - 52)

/-- The conversion of a `double` to `int` (32 bits): truncation toward zero,
undefined when the truncated value is not representable. -/
def doubleToInt (q : ℚ) : Option Int :=
  let t : Int := if 0 ≤ q then ⌊q⌋ else ⌈q⌉
  if -2147483648 ≤ t ∧ t ≤ 2147483647 then some t else none

namespace UniverseModifier

/-- Constant `heatingSpeed` of `modifyExisting`. -/
def heatingSpeed : ℚ := 0.1

/-- Constant `pushingSpeed` of `modifyExisting`. -/
def pushingSpeed : ℚ := 0.5

/-- Constant `pullingSpeed` of `modifyExisting`. -/
def pullingSpeed : ℚ := 0.2

/-- Constant `removeSpeed` of `modifyExisting`. -/
def removeSpeed : ℚ := 0.5

/-- Constant `creationRadiusCoef` of `addNew`. -/
def creationRadiusCoef : ℚ := 0.8

/-- Constant `sprayParticleSpeedCoef` of `addNew`. -/
def sprayParticleSpeedCoef : ℚ := 0.08

/-- Constant `newParticlesCoef` of `addNew`. -/
def newParticlesCoef : ℚ := 0.04

/-- The `double` value of the expression `newParticlesCoef * handler.radius + 1`
(line 107) as the machine computes it: the literal 0.04 is the nearest double,
the product is rounded, then the sum is rounded (no fused multiply-add). -/
def newParticlesValue (radius : ℚ) : ℚ :=
  roundToDouble (roundToDouble (roundToDouble newParticlesCoef * radius) + 1)

/-- The statements `state.v -= (state.pos - handler.pos) * (pullingSpeed * dT /
handler.radius); state.v *= 1. - heatingSpeed * dT;` (lines 68-69 and 74-75). -/
def pullAndSlow (handler : CallbackHandler) (dT : ℚ) (state : ParticleState) : ParticleState :=
  { state with
    v := (state.v - (state.pos - handler.pos) * (pullingSpeed * dT / handler.radius))
          * (1 - heatingSpeed * dT) }

/-- The body of `case MouseAction::spray` (lines 78-85), also reached by
fall-through from `case MouseAction::create`: with `sign == -1` one Bernoulli
trial of probability `removeSpeed * dT` decides whether the particle is erased
(`none`). -/
def removalTrial (handler : CallbackHandler) (dT : ℚ) (state : ParticleState)
    (g : RandomGenerator) : Option ParticleState × RandomGenerator :=
  if handler.sign = -1 then
    let prob := removeSpeed * dT
    let r := bernoulli prob g
    if r.1 then (none, r.2) else (some state, r.2)
  else (some state, g)

/-- One pass of the `while` loop of `modifyExisting` on the particle under the
iterator (lines 57-87): the new state of the particle, or `none` when it was
erased, and the generator afterwards. -/
def modifyParticle (handler : CallbackHandler) (dT : ℚ) (state : ParticleState)
    (g : RandomGenerator) : Option ParticleState × RandomGenerator :=
  if (state.pos - handler.pos).magnitudeLt handler.radius then
    match handler.action with
    | MouseAction.heat =>
      (some { state with v := state.v * (1 + (handler.sign : ℚ) * heatingSpeed * dT) }, g)
    | MouseAction.push =>
      if handler.sign > 0 then
        (some { state with
                v := state.v + (state.pos - handler.pos) * (pushingSpeed * dT / handler.radius) },
         g)
      else if handler.sign < 0 then (some (pullAndSlow handler dT state), g)
      else (some state, g)
    | MouseAction.create =>
      let state1 := if handler.sign > 0 then pullAndSlow handler dT state else state
      removalTrial handler dT state1 g
    | MouseAction.spray => removalTrial handler dT state g
  else (some state, g)

/-- The `while` loop of `modifyExisting` from an iterator position on: the
arguments are the species and states from the iterator to the end. A kept
particle stays in front of the result and the iterator moves on; an erased
particle is dropped from both sequences (`universe.erase(it)`, not among the
sources, erases both parallel entries as `removeParticle` does) and the
iterator stays on the next particle. -/
def modifyExistingLoop (handler : CallbackHandler) (dT : ℚ) :
    List ParticleType → List ParticleState → RandomGenerator →
      List ParticleType × List ParticleState × RandomGenerator
  | ts, [], g => (ts, [], g)
  | ts, s :: ss, g =>
    match modifyParticle handler dT s g with
    | (some s1, g1) =>
      let r := modifyExistingLoop handler dT ts.tail ss g1
      (ts.take 1 ++ r.1, s1 :: r.2.1, r.2.2)
    | (none, g1) => modifyExistingLoop handler dT ts.tail ss g1

/-- The existing-particle pass, `UniverseModifier::modifyExisting`. -/
def modifyExisting (u : Universe) (handler : CallbackHandler) (dT : ℚ)
    (g : RandomGenerator) : Universe × RandomGenerator :=
  let r := modifyExistingLoop handler dT u.diff.particles u.state.state g
  ({ diff := { u.diff with particles := r.1 }, state := ⟨r.2.1⟩ }, r.2.2)

/-- The `for` loop of the `create` case of `addNew` (lines 108-114), for the
given number of passes: draw an angle and a distance, clamp the position into
the world and append a particle at rest. -/
def createLoop (sm : Sampling) (handler : CallbackHandler) (type : ParticleType) :
    Nat → Universe → RandomGenerator → Universe × RandomGenerator
  | 0, u, g => (u, g)
  | n + 1, u, g =>
    let phi := sm.phiDistr (g.draw).1
    let g1 := (g.draw).2
    let r := sm.rDistr (creationRadiusCoef * handler.radius) (g1.draw).1
    let g2 := (g1.draw).2
    let pos := u.clampInto (handler.pos + ⟨r * sm.cos phi, r * sm.sin phi⟩)
    createLoop sm handler type n (u.addParticle type (ParticleState.ofPos pos)) g2

/-- The spawn pass, `UniverseModifier::addNew`. The spawned species is passed
as the catalogue entry itself (the source passes its `int` index). -/
def addNew (sm : Sampling) (u : Universe) (handler : CallbackHandler) (dT : ℚ)
    (type : ParticleType) (g : RandomGenerator) : Option (Universe × RandomGenerator) :=
  if handler.sign ≤ 0 then some (u, g)
  else
    match handler.action with
    | MouseAction.create =>
      match doubleToInt (newParticlesValue handler.radius) with
      | none => none
      | some newParticles => some (createLoop sm handler type newParticles.toNat u g)
    | MouseAction.spray =>
      let phi := sm.phiDistr (g.draw).1
      let velocity := sprayParticleSpeedCoef * handler.radius
      let state : ParticleState := ⟨handler.pos, ⟨velocity * sm.cos phi, velocity * sm.sin phi⟩⟩
      some (u.addParticle type state, (g.draw).2)
    | _ => some (u, g)

/-- The top-level entry, `UniverseModifier::modify`. -/
def modify (sm : Sampling) (u : Universe) (handler : CallbackHandler) (dT : ℚ)
    (type : ParticleType) (g : RandomGenerator) : Option (Universe × RandomGenerator) :=
  if handler.sign = 0 then some (u, g)
  else
    let r := modifyExisting u handler dT g
    addNew sm r.1 handler dT type r.2

end UniverseModifier

/-! ## Sequences of population operations -/

/-- One population operation on a `Universe`. -/
inductive PopulationOp where
  | add (pType : ParticleType) (pState : ParticleState)
  | remove (index : Int)

/-- Apply a sequence of population operations in order; `none` as soon as a
removal is out of range. -/
def applyOps : List PopulationOp → Universe → Option Universe
  | [], u => some u
  | PopulationOp.add t s :: ops, u => applyOps ops (u.addParticle t s)
  | PopulationOp.remove i :: ops, u => (u.removeParticle i).bind (applyOps ops)

/-- Every removal of the sequence has `0 ≤ index < count`, where `count` is the
number of particles at that point, starting from `count` particles. -/
def opsInRange : List PopulationOp → Nat → Bool
  | [], _ => true
  | PopulationOp.add _ _ :: ops, count => opsInRange ops (count + 1)
  | PopulationOp.remove i :: ops, count =>
    decide (0 ≤ i ∧ i < count) && opsInRange ops (count - 1)

/-! ## Basic facts -/

namespace Vector2D

@[simp] theorem zero_x : (0 : Vector2D).x = 0 := rfl
@[simp] theorem zero_y : (0 : Vector2D).y = 0 := rfl
@[simp] theorem add_x (a b : Vector2D) : (a + b).x = a.x + b.x := rfl
@[simp] theorem add_y (a b : Vector2D) : (a + b).y = a.y + b.y := rfl
@[simp] theorem neg_x (a : Vector2D) : (-a).x = -a.x := rfl
@[simp] theorem neg_y (a : Vector2D) : (-a).y = -a.y := rfl
@[simp] theorem sub_x (a b : Vector2D) : (a - b).x = a.x - b.x := rfl
@[simp] theorem sub_y (a b : Vector2D) : (a - b).y = a.y - b.y := rfl
@[simp] theorem mul_x (a : Vector2D) (k : ℚ) : (a * k).x = a.x * k := rfl
@[simp] theorem mul_y (a : Vector2D) (k : ℚ) : (a * k).y = a.y * k := rfl
@[simp] theorem div_x (a : Vector2D) (k : ℚ) : (a / k).x = a.x / k := rfl
@[simp] theorem div_y (a : Vector2D) (k : ℚ) : (a / k).y = a.y / k := rfl

end Vector2D

namespace ParticleState

@[simp] theorem add_pos (a b : ParticleState) : (a + b).pos = a.pos + b.pos := rfl
@[simp] theorem add_v (a b : ParticleState) : (a + b).v = a.v + b.v := rfl
@[simp] theorem mul_pos (a : ParticleState) (k : ℚ) : (a * k).pos = a.pos * k := rfl
@[simp] theorem mul_v (a : ParticleState) (k : ℚ) : (a * k).v = a.v * k := rfl

end ParticleState

/-! ## Population invariant (C1, C2) -/

theorem applyOps_lengths (ops : List PopulationOp) :
    ∀ (u : Universe) (n : Nat), u.diff.particles.length = n → u.state.state.length = n →
      opsInRange ops n = true →
      ∃ u1, applyOps ops u = some u1 ∧ u1.diff.particles.length = u1.state.state.length := by
  induction ops with
  | nil => intro u n h1 h2 _; exact ⟨u, rfl, by rw [h1, h2]⟩
  | cons op ops ih =>
    intro u n h1 h2 h
    cases op with
    | add t s =>
      simp only [opsInRange] at h
      exact ih (u.addParticle t s) (n + 1) (by simp [Universe.addParticle, h1])
        (by simp [Universe.addParticle, h2]) h
    | remove i =>
      simp only [opsInRange, Bool.and_eq_true, decide_eq_true_eq] at h
      obtain ⟨⟨h0, hlt⟩, hrest⟩ := h
      have hi : i.toNat < n := by omega
      have hg : 0 ≤ i ∧ i < (u.diff.particles.length : Int) ∧ i < (u.state.state.length : Int) := by
        rw [h1, h2]; exact ⟨h0, hlt, hlt⟩
      have hrem : u.removeParticle i = some
          { diff := { u.diff with particles := u.diff.particles.eraseIdx i.toNat },
            state := ⟨u.state.state.eraseIdx i.toNat⟩ } := by
        simp only [Universe.removeParticle, if_pos hg]
      simp only [applyOps, hrem, Option.some_bind]
      exact ih _ (n - 1)
        (by simp [List.length_eraseIdx, h1, hi])
        (by simp [List.length_eraseIdx, h2, hi]) hrest

/-- C1: starting from an empty Universe, every finite sequence of addParticle
and in-range removeParticle calls (each index satisfies 0 ≤ index < count) runs
to completion and leaves the species sequence and the state sequence with equal
length. -/
theorem C1_population_invariant (sizeX sizeY forceFactor gravity : ℚ) (ops : List PopulationOp)
    (h : opsInRange ops 0 = true) :
    ∃ u, applyOps ops (Universe.new sizeX sizeY forceFactor gravity) = some u ∧
      u.diff.particles.length = u.state.state.length :=
  applyOps_lengths ops _ 0 rfl rfl h

/-- Witness for C1: two additions followed by the removal of index 0. -/
theorem C1_population_invariant_witness :
    opsInRange [PopulationOp.add default default, PopulationOp.add default default,
        PopulationOp.remove 0] 0 = true ∧
      ∃ u, applyOps [PopulationOp.add default default, PopulationOp.add default default,
          PopulationOp.remove 0] (Universe.new 10 10 1 0) = some u ∧
        u.diff.particles.length = u.state.state.length :=
  ⟨by decide, C1_population_invariant 10 10 1 0 _ (by decide)⟩

/-- C2: in a Universe whose two sequences have n entries, removeParticle(k)
with 0 ≤ k < n succeeds and leaves both sequences with n - 1 entries; every
entry below k is unchanged and every entry i with k ≤ i < n - 1 is the old
entry i + 1, in the species sequence and in the state sequence alike. -/
theorem C2_removeParticle_shift (u : Universe) (n k : Nat)
    (hp : u.diff.particles.length = n) (hs : u.state.state.length = n) (hk : k < n) :
    ∃ u1, u.removeParticle (k : Int) = some u1 ∧
      u1.diff.particles.length = n - 1 ∧ u1.state.state.length = n - 1 ∧
      (∀ i, i < k →
        u1.diff.particles[i]? = u.diff.particles[i]? ∧
        u1.state.state[i]? = u.state.state[i]?) ∧
      (∀ i, k ≤ i → i < n - 1 →
        u1.diff.particles[i]? = u.diff.particles[i + 1]? ∧
        u1.state.state[i]? = u.state.state[i + 1]?) := by
  have hg : (0 : Int) ≤ k ∧ (k : Int) < (u.diff.particles.length : Int) ∧
      (k : Int) < (u.state.state.length : Int) := by
    rw [hp, hs]; omega
  have hrem : u.removeParticle (k : Int) = some
      { diff := { u.diff with particles := u.diff.particles.eraseIdx k },
        state := ⟨u.state.state.eraseIdx k⟩ } := by
    simp only [Universe.removeParticle, if_pos hg, Int.toNat_ofNat]
  refine ⟨_, hrem, ?_, ?_, ?_, ?_⟩
  · simp [List.length_eraseIdx, hp, hk]
  · simp [List.length_eraseIdx, hs, hk]
  · intro i hi
    simp [List.getElem?_eraseIdx_of_lt, hi]
  · intro i hi _
    simp [List.getElem?_eraseIdx_of_ge, hi]

/-- Witness for C2: removing index 1 of three particles. -/
theorem C2_removeParticle_shift_witness :
    ∃ u1, (Universe.mk ⟨10, 10, 1, 0, [⟨"a", 1, 1, 1, 0, 5⟩, ⟨"b", 2, 1, 1, 0, 5⟩,
          ⟨"c", 3, 1, 1, 0, 5⟩]⟩
        ⟨[⟨⟨1, 1⟩, 0⟩, ⟨⟨2, 2⟩, 0⟩, ⟨⟨3, 3⟩, 0⟩]⟩).removeParticle ((1 : Nat) : Int) = some u1 ∧
      u1.diff.particles.length = 3 - 1 ∧ u1.state.state.length = 3 - 1 ∧
      (∀ i, i < 1 →
        u1.diff.particles[i]? = ([⟨"a", 1, 1, 1, 0, 5⟩, ⟨"b", 2, 1, 1, 0, 5⟩,
          ⟨"c", 3, 1, 1, 0, 5⟩] : List ParticleType)[i]? ∧
        u1.state.state[i]? = ([⟨⟨1, 1⟩, 0⟩, ⟨⟨2, 2⟩, 0⟩, ⟨⟨3, 3⟩, 0⟩] : List ParticleState)[i]?) ∧
      (∀ i, 1 ≤ i → i < 3 - 1 →
        u1.diff.particles[i]? = ([⟨"a", 1, 1, 1, 0, 5⟩, ⟨"b", 2, 1, 1, 0, 5⟩,
          ⟨"c", 3, 1, 1, 0, 5⟩] : List ParticleType)[i + 1]? ∧
        u1.state.state[i]? =
          ([⟨⟨1, 1⟩, 0⟩, ⟨⟨2, 2⟩, 0⟩, ⟨⟨3, 3⟩, 0⟩] : List ParticleState)[i + 1]?) :=
  C2_removeParticle_shift _ 3 1 rfl rfl (by decide)

/-! ## Soft walls (C4, C5) -/

/-- C4: boundForce is 0 for every depth over ≤ 0 (exactly at the wall
included), is forceFactor * over^4 for every over > 0, and is strictly
increasing on over > 0 when forceFactor > 0. -/
theorem C4_boundForce (d : UniverseDifferentiator) :
    (∀ over : ℚ, over ≤ 0 → d.boundForce over = 0) ∧
    (∀ over : ℚ, 0 < over → d.boundForce over = d.forceFactor * over ^ 4) ∧
    (0 < d.forceFactor → ∀ a b : ℚ, 0 < a → a < b → d.boundForce a < d.boundForce b) := by
  refine ⟨?_, ?_, ?_⟩
  · intro over h
    unfold UniverseDifferentiator.boundForce
    split_ifs with h0
    · rfl
    · have : over = 0 := le_antisymm h (not_lt.mp h0)
      simp [this]
  · intro over h
    unfold UniverseDifferentiator.boundForce
    rw [if_neg (not_lt.mpr h.le)]
    ring
  · intro hf a b ha hab
    have hb : 0 < b := ha.trans hab
    unfold UniverseDifferentiator.boundForce
    rw [if_neg (not_lt.mpr ha.le), if_neg (not_lt.mpr hb.le)]
    have h4 : a ^ 4 < b ^ 4 := pow_lt_pow_left₀ hab ha.le (by norm_num)
    have e1 : d.forceFactor * a * a * a * a = d.forceFactor * a ^ 4 := by ring
    have e2 : d.forceFactor * b * b * b * b = d.forceFactor * b ^ 4 := by ring
    rw [e1, e2]
    exact mul_lt_mul_of_pos_left h4 hf

/-- Witness for C4: wall coefficient 3, depths 0, 1 and 2. -/
theorem C4_boundForce_witness :
    UniverseDifferentiator.boundForce ⟨10, 10, 3, 0, []⟩ 0 = 0 ∧
    UniverseDifferentiator.boundForce ⟨10, 10, 3, 0, []⟩ 2 = 3 * 2 ^ 4 ∧
    UniverseDifferentiator.boundForce ⟨10, 10, 3, 0, []⟩ 1 <
      UniverseDifferentiator.boundForce ⟨10, 10, 3, 0, []⟩ 2 :=
  ⟨(C4_boundForce ⟨10, 10, 3, 0, []⟩).1 0 le_rfl,
   (C4_boundForce ⟨10, 10, 3, 0, []⟩).2.1 2 (by norm_num),
   (C4_boundForce ⟨10, 10, 3, 0, []⟩).2.2 (by norm_num) 1 2 (by norm_num) (by norm_num)⟩

theorem boundForce_of_nonpos (d : UniverseDifferentiator) {over : ℚ} (h : over ≤ 0) :
    d.boundForce over = 0 := by
  unfold UniverseDifferentiator.boundForce
  split_ifs with h0
  · rfl
  · have : over = 0 := le_antisymm h (not_lt.mp h0)
    simp [this]

theorem boundForce_of_pos (d : UniverseDifferentiator) {over : ℚ} (h : 0 < over) :
    d.boundForce over = d.forceFactor * over ^ 4 := by
  unfold UniverseDifferentiator.boundForce
  rw [if_neg (not_lt.mpr h.le)]
  ring

/-- C5: with forceFactor > 0 and a world of non-negative size, the wall updates
of derivative leave the force of a particle inside [0,sizeX] x [0,sizeY]
unchanged; a particle at x = -a (a > 0) gets +forceFactor*a^4 in x, a particle
at x = sizeX + a gets -forceFactor*a^4 in x, and likewise in y for the walls
y = 0 and y = sizeY; the amount forceFactor*a^4 is positive, so the push is
inward. -/
theorem C5_wall_force (d : UniverseDifferentiator) (s : ParticleState) (f : Vector2D)
    (hf : 0 < d.forceFactor) (hX : 0 ≤ d.sizeX) (hY : 0 ≤ d.sizeY) :
    (0 ≤ s.pos.x → s.pos.x ≤ d.sizeX → 0 ≤ s.pos.y → s.pos.y ≤ d.sizeY →
      d.applyBounds s f = f) ∧
    (∀ a : ℚ, 0 < a → 0 < d.forceFactor * a ^ 4) ∧
    (∀ a : ℚ, 0 < a → s.pos.x = -a → (d.applyBounds s f).x = f.x + d.forceFactor * a ^ 4) ∧
    (∀ a : ℚ, 0 < a → s.pos.x = d.sizeX + a →
      (d.applyBounds s f).x = f.x - d.forceFactor * a ^ 4) ∧
    (∀ a : ℚ, 0 < a → s.pos.y = -a → (d.applyBounds s f).y = f.y + d.forceFactor * a ^ 4) ∧
    (∀ a : ℚ, 0 < a → s.pos.y = d.sizeY + a →
      (d.applyBounds s f).y = f.y - d.forceFactor * a ^ 4) := by
  refine ⟨?_, ?_, ?_, ?_, ?_, ?_⟩
  · intro h1 h2 h3 h4
    have e1 : d.boundForce (-s.pos.x) = 0 := boundForce_of_nonpos d (by linarith)
    have e2 : d.boundForce (s.pos.x - d.sizeX) = 0 := boundForce_of_nonpos d (by linarith)
    have e3 : d.boundForce (-s.pos.y) = 0 := boundForce_of_nonpos d (by linarith)
    have e4 : d.boundForce (s.pos.y - d.sizeY) = 0 := boundForce_of_nonpos d (by linarith)
    ext <;> simp [UniverseDifferentiator.applyBounds, e1, e2, e3, e4]
  · intro a ha
    exact mul_pos hf (pow_pos ha 4)
  · intro a ha hx
    have e1 : d.boundForce (-s.pos.x) = d.forceFactor * a ^ 4 := by
      rw [hx, neg_neg]; exact boundForce_of_pos d ha
    have e2 : d.boundForce (s.pos.x - d.sizeX) = 0 := boundForce_of_nonpos d (by linarith)
    simp [UniverseDifferentiator.applyBounds, e1, e2]
  · intro a ha hx
    have e1 : d.boundForce (-s.pos.x) = 0 := boundForce_of_nonpos d (by linarith)
    have e2 : d.boundForce (s.pos.x - d.sizeX) = d.forceFactor * a ^ 4 := by
      rw [hx, add_sub_cancel_left]; exact boundForce_of_pos d ha
    simp [UniverseDifferentiator.applyBounds, e1, e2]
  · intro a ha hy
    have e1 : d.boundForce (-s.pos.y) = d.forceFactor * a ^ 4 := by
      rw [hy, neg_neg]; exact boundForce_of_pos d ha
    have e2 : d.boundForce (s.pos.y - d.sizeY) = 0 := boundForce_of_nonpos d (by linarith)
    simp [UniverseDifferentiator.applyBounds, e1, e2]
  · intro a ha hy
    have e1 : d.boundForce (-s.pos.y) = 0 := boundForce_of_nonpos d (by linarith)
    have e2 : d.boundForce (s.pos.y - d.sizeY) = d.forceFactor * a ^ 4 := by
      rw [hy, add_sub_cancel_left]; exact boundForce_of_pos d ha
    simp [UniverseDifferentiator.applyBounds, e1, e2]

/-- Witness for C5: a world of size 10 x 10 with wall coefficient 3; the
particle at (-2, 5) gets +3*2^4 in x. -/
theorem C5_wall_force_witness :
    (0 : ℚ) < 3 ∧ (0 : ℚ) ≤ 10 ∧
    (UniverseDifferentiator.applyBounds ⟨10, 10, 3, 0, []⟩ ⟨⟨-2, 5⟩, 0⟩ ⟨1, 1⟩).x
      = 1 + 3 * 2 ^ 4 :=
  ⟨by norm_num, by norm_num,
   (C5_wall_force ⟨10, 10, 3, 0, []⟩ ⟨⟨-2, 5⟩, 0⟩ ⟨1, 1⟩ (by norm_num) (by norm_num)
      (by norm_num)).2.2.1 2 (by norm_num) rfl⟩

/-! ## Vector-space laws of UniverseState (C7) -/

theorem particleState_add_mul (a b : ParticleState) (k : ℚ) : (a + b) * k = a * k + b * k := by
  ext <;> simp [add_mul]

theorem particleState_add_comm (a b : ParticleState) : a + b = b + a := by
  ext <;> simp [add_comm]

theorem zipWith_add_mul (k : ℚ) : ∀ l1 l2 : List ParticleState,
    (List.zipWith (fun a b => a + b) l1 l2).map (fun (a : ParticleState) => a * k)
      = List.zipWith (fun a b => a + b) (l1.map (fun (a : ParticleState) => a * k))
          (l2.map (fun (a : ParticleState) => a * k))
  | [], _ => by simp
  | _ :: _, [] => by simp
  | a :: l1, b :: l2 => by
    simp only [List.zipWith_cons_cons, List.map_cons, particleState_add_mul,
      zipWith_add_mul k l1 l2]

theorem zipWith_add_comm : ∀ l1 l2 : List ParticleState,
    List.zipWith (fun a b => a + b) l1 l2 = List.zipWith (fun a b => a + b) l2 l1
  | [], l2 => by cases l2 <;> simp
  | _ :: _, [] => by simp
  | a :: l1, b :: l2 => by
    simp only [List.zipWith_cons_cons, zipWith_add_comm l1 l2, particleState_add_comm a b]

/-- C7: for UniverseState values a and b of equal length and every scalar k,
the sums a + b, b + a and a*k + b*k are defined (the length assertion holds),
(a + b) * k equals a*k + b*k, and a + b equals b + a. -/
theorem C7_vector_space_laws (a b : UniverseState) (k : ℚ)
    (h : a.state.length = b.state.length) :
    ∃ c, a.add b = some c ∧ (a.mul k).add (b.mul k) = some (c.mul k) ∧ b.add a = some c := by
  refine ⟨⟨List.zipWith (fun x y => x + y) a.state b.state⟩, ?_, ?_, ?_⟩
  · simp [UniverseState.add, h]
  · simp only [UniverseState.add, UniverseState.mul, List.length_map, h, if_true,
      ← zipWith_add_mul]
  · simp only [UniverseState.add, h, if_true, zipWith_add_comm b.state a.state]

/-- Witness for C7: two states of two particles each and the scalar 3. -/
theorem C7_vector_space_laws_witness :
    ∃ c, (UniverseState.mk [⟨⟨1, 2⟩, ⟨3, 4⟩⟩, ⟨⟨0, 1⟩, ⟨1, 0⟩⟩]).add
          ⟨[⟨⟨5, 6⟩, ⟨7, 8⟩⟩, ⟨⟨2, 2⟩, ⟨1, 1⟩⟩]⟩ = some c ∧
      ((UniverseState.mk [⟨⟨1, 2⟩, ⟨3, 4⟩⟩, ⟨⟨0, 1⟩, ⟨1, 0⟩⟩]).mul 3).add
          ((UniverseState.mk [⟨⟨5, 6⟩, ⟨7, 8⟩⟩, ⟨⟨2, 2⟩, ⟨1, 1⟩⟩]).mul 3) = some (c.mul 3) ∧
      (UniverseState.mk [⟨⟨5, 6⟩, ⟨7, 8⟩⟩, ⟨⟨2, 2⟩, ⟨1, 1⟩⟩]).add
          ⟨[⟨⟨1, 2⟩, ⟨3, 4⟩⟩, ⟨⟨0, 1⟩, ⟨1, 0⟩⟩]⟩ = some c :=
  C7_vector_space_laws _ _ 3 rfl

/-! ## Clamping (C8) -/

/-- C8: in a world with sizeX ≥ 0 and sizeY ≥ 0, clampInto(pos) has x in
[0, sizeX] and y in [0, sizeY]; a position already in that box is returned
unchanged; clamping twice is clamping once. -/
theorem C8_clampInto (u : Universe) (pos : Vector2D) (hX : 0 ≤ u.diff.sizeX)
    (hY : 0 ≤ u.diff.sizeY) :
    (0 ≤ (u.clampInto pos).x ∧ (u.clampInto pos).x ≤ u.diff.sizeX ∧
      0 ≤ (u.clampInto pos).y ∧ (u.clampInto pos).y ≤ u.diff.sizeY) ∧
    (0 ≤ pos.x → pos.x ≤ u.diff.sizeX → 0 ≤ pos.y → pos.y ≤ u.diff.sizeY →
      u.clampInto pos = pos) ∧
    u.clampInto (u.clampInto pos) = u.clampInto pos := by
  have box : ∀ p : Vector2D, 0 ≤ (u.clampInto p).x ∧ (u.clampInto p).x ≤ u.diff.sizeX ∧
      0 ≤ (u.clampInto p).y ∧ (u.clampInto p).y ≤ u.diff.sizeY := by
    intro p
    simp only [Universe.clampInto]
    exact ⟨le_min (le_max_right _ _) hX, min_le_right _ _,
      le_min (le_max_right _ _) hY, min_le_right _ _⟩
  have fix : ∀ p : Vector2D, 0 ≤ p.x → p.x ≤ u.diff.sizeX → 0 ≤ p.y → p.y ≤ u.diff.sizeY →
      u.clampInto p = p := by
    intro p h1 h2 h3 h4
    ext
    · simp only [Universe.clampInto, max_eq_left h1, min_eq_left h2]
    · simp only [Universe.clampInto, max_eq_left h3, min_eq_left h4]
  refine ⟨box pos, fix pos, ?_⟩
  obtain ⟨h1, h2, h3, h4⟩ := box pos
  exact fix _ h1 h2 h3 h4

/-- Witness for C8: the position (-3, 25) in a world of size 10 x 20. -/
theorem C8_clampInto_witness :
    (Universe.new 10 20 1 0).clampInto ((Universe.new 10 20 1 0).clampInto ⟨-3, 25⟩)
      = (Universe.new 10 20 1 0).clampInto ⟨-3, 25⟩ :=
  (C8_clampInto (Universe.new 10 20 1 0) ⟨-3, 25⟩ (by norm_num [Universe.new])
    (by norm_num [Universe.new])).2.2

/-! ## The modifier with no button held (C9) -/

/-- C9: with sign == 0, modify returns at once: the Universe (particle count,
every species, position and velocity) is unchanged, for every action mode,
pointer position, radius, dt and spawn species, and the random generator is
handed back untouched (no draw consumed). -/
theorem C9_modify_sign_zero (sm : Sampling) (u : Universe) (handler : CallbackHandler)
    (dT : ℚ) (type : ParticleType) (g : RandomGenerator) (h : handler.sign = 0) :
    UniverseModifier.modify sm u handler dT type g = some (u, g) := by
  simp only [UniverseModifier.modify, if_pos h]

/-- Witness for C9: create mode with both buttons held (sign 0) on a Universe
of one particle. -/
theorem C9_modify_sign_zero_witness :
    UniverseModifier.modify ⟨id, fun _ q => q, id, id⟩
        ((Universe.new 10 10 1 0).addParticle default default)
        ⟨MouseAction.create, ⟨0, 0⟩, true, true, 0, 100⟩ 1 default ⟨fun _ => 0, 0⟩
      = some ((Universe.new 10 10 1 0).addParticle default default, ⟨fun _ => 0, 0⟩) :=
  C9_modify_sign_zero _ _ _ 1 default _ rfl

/-! ## Force accumulation in `derivative` (C3) -/

theorem getElem?_modify_some {V : Type} (f : V → V) (fs : List V) (i k : Nat) (a : V)
    (h : fs[k]? = some a) :
    (fs.modify f i)[k]? = some (if i = k then f a else a) := by
  rw [List.getElem?_modify, h]; rfl

/-- The inner loop for a fixed `i`, after `j ≤ i` passes, on a force vector of
`n` entries whose entry `k` is `φ k`: entry `i` has gained the pair forces
`F 0 .. F (j-1)`, entry `k < j` has lost `F k`, the others are untouched. -/
theorem pairLoop_rep {V : Type} [AddCommGroup V] (F : Nat → V) (n i : Nat) (hi : i < n)
    (fs : List V) (φ : Nat → V)
    (hlen : fs.length = n) (hφ : ∀ k, k < n → fs[k]? = some (φ k)) :
    ∀ j, j ≤ i →
      ((List.range j).foldl
          (fun fs j => (fs.modify (fun a => a + F j) i).modify (fun a => a - F j) j) fs).length
        = n ∧
      ∀ k, k < n →
        ((List.range j).foldl
          (fun fs j => (fs.modify (fun a => a + F j) i).modify (fun a => a - F j) j) fs)[k]?
          = some (if k = i then φ k + ∑ m in Finset.range j, F m
                  else if k < j then φ k - F k else φ k) := by
  intro j
  induction j with
  | zero =>
    intro _
    refine ⟨by simpa using hlen, ?_⟩
    intro k hk
    simp [hφ k hk]
  | succ j ih =>
    intro hj
    obtain ⟨hl, hr⟩ := ih (by omega)
    rw [List.range_succ, List.foldl_append]
    refine ⟨by simpa using hl, ?_⟩
    intro k hk
    simp only [List.foldl_cons, List.foldl_nil]
    rw [getElem?_modify_some _ _ _ _ _ (getElem?_modify_some _ _ _ _ _ (hr k hk))]
    congr 1
    by_cases hki : k = i
    · subst hki
      have hjk : ¬ j = k := by omega
      simp [hjk, Finset.sum_range_succ, add_assoc]
    · by_cases hkj : k = j
      · subst hkj
        have : ¬ i = k := fun h => hki h.symm
        simp [this, hki]
      · have h1 : ¬ i = k := fun h => hki h.symm
        have h2 : ¬ j = k := fun h => hkj h.symm
        by_cases hlt : k < j
        · have : k < j + 1 := by omega
          simp [h1, h2, hki, hlt, this]
        · have : ¬ k < j + 1 := by omega
          simp [h1, h2, hki, hlt, this]

/-- The wall and gravity updates add a fixed vector to the force. -/
theorem applyGravity_applyBounds (d : UniverseDifferentiator) (t : ParticleType)
    (s : ParticleState) (f : Vector2D) :
    d.applyGravity t (d.applyBounds s f)
      = f + ⟨d.boundForce (-s.pos.x) - d.boundForce (s.pos.x - d.sizeX),
             d.boundForce (-s.pos.y) - d.boundForce (s.pos.y - d.sizeY)⟩
          + ⟨0, d.gravity * t.mass⟩ := by
  ext
  · simp [UniverseDifferentiator.applyGravity, UniverseDifferentiator.applyBounds]
    ring
  · simp [UniverseDifferentiator.applyGravity, UniverseDifferentiator.applyBounds]
    ring

/-- The outer loop after `m` passes: entry `k < m` holds its own pair forces,
walls and gravity, minus the pair forces of the later particles visited so far;
entry `k ≥ m` is still zero. -/
theorem forceLoop_rep (d : UniverseDifferentiator) (cf : PairForce) (state : UniverseState) :
    ∀ m, m ≤ d.particles.length →
      ((List.range m).foldl (d.forceStep cf state)
          (List.replicate d.particles.length 0)).length = d.particles.length ∧
      ∀ k, k < d.particles.length →
        ((List.range m).foldl (d.forceStep cf state)
          (List.replicate d.particles.length 0))[k]?
          = some ((if k < m then
                    d.applyGravity (d.particles.getD k default)
                      (d.applyBounds (state.state.getD k default)
                        (∑ j in Finset.range k, d.pairForce cf state k j))
                   else 0)
                  - ∑ i in Finset.Ico (k + 1) m, d.pairForce cf state i k) := by
  intro m
  induction m with
  | zero =>
    intro _
    refine ⟨by simp, ?_⟩
    intro k hk
    simp [List.getElem?_replicate, hk]
  | succ m ih =>
    intro hm
    obtain ⟨hl, hr⟩ := ih (by omega)
    rw [List.range_succ, List.foldl_append]
    simp only [List.foldl_cons, List.foldl_nil]
    have hin := pairLoop_rep (fun j => d.pairForce cf state m j) d.particles.length m
      (by omega) _ _ hl hr m le_rfl
    refine ⟨?_, ?_⟩
    · simp only [UniverseDifferentiator.forceStep, UniverseDifferentiator.pairLoop,
        List.length_modify]
      exact hin.1
    · intro k hk
      simp only [UniverseDifferentiator.forceStep, UniverseDifferentiator.pairLoop]
      rw [getElem?_modify_some _ _ _ _ _ (hin.2 k hk)]
      congr 1
      by_cases hkm : k = m
      · subst hkm
        simp
      · have h1 : ¬ m = k := fun h => hkm h.symm
        by_cases hlt : k < m
        · have h2 : k < m + 1 := by omega
          have h3 : k + 1 ≤ m := by omega
          simp only [h1, hkm, hlt, h2, if_true, if_false, Finset.sum_Ico_succ_top h3]
          abel
        · have h2 : ¬ k < m + 1 := by omega
          have h3 : Finset.Ico (k + 1) m = ∅ := Finset.Ico_eq_empty (by omega)
          have h4 : Finset.Ico (k + 1) (m + 1) = ∅ := Finset.Ico_eq_empty (by omega)
          simp [h1, hkm, hlt, h2, h3, h4]

/-- C3: for a state with as many entries as there are species (n of each) and
any pair-force law, the force accumulated for particle i is the sum over j < i
of F(i,j), minus the sum over j > i of F(j,i), plus the four wall terms of
particle i, plus (0, gravity * mass_i), where F(i,j) is the one evaluation of
the pair {i,j}; derivative returns a state of exactly n entries, entry i being
the derivative of particle i under that force. -/
theorem C3_derivative_forces (d : UniverseDifferentiator) (cf : PairForce)
    (state : UniverseState) (h : state.state.length = d.particles.length) :
    (∀ i, i < d.particles.length →
      (d.accumulateForces cf state)[i]? = some
        (∑ j in Finset.range i, d.pairForce cf state i j
          - ∑ j in Finset.Ico (i + 1) d.particles.length, d.pairForce cf state j i
          + ⟨d.boundForce (-(state.state.getD i default).pos.x)
               - d.boundForce ((state.state.getD i default).pos.x - d.sizeX),
             d.boundForce (-(state.state.getD i default).pos.y)
               - d.boundForce ((state.state.getD i default).pos.y - d.sizeY)⟩
          + ⟨0, d.gravity * (d.particles.getD i default).mass⟩)) ∧
    ∃ der, d.derivative cf state = some der ∧
      der.state.length = d.particles.length ∧
      ∀ i, i < d.particles.length →
        der.state[i]? = some ((d.particles.getD i default).derivative
          (state.state.getD i default) ((d.accumulateForces cf state).getD i 0)) := by
  refine ⟨?_, ?_⟩
  · intro i hi
    have hrep := (forceLoop_rep d cf state d.particles.length le_rfl).2 i hi
    unfold UniverseDifferentiator.accumulateForces
    rw [hrep, if_pos hi, applyGravity_applyBounds]
    congr 1
    abel
  · have hder : d.derivative cf state = some ⟨(List.range d.particles.length).map (fun i =>
        (d.particles.getD i default).derivative (state.state.getD i default)
          ((d.accumulateForces cf state).getD i 0))⟩ := by
      simp only [UniverseDifferentiator.derivative, if_pos h.ge]
    refine ⟨_, hder, ?_, ?_⟩
    · simp
    · intro i hi
      simp [List.getElem?_map, List.getElem?_range hi]

/-- Witness for C3: two particles and the pair force `a.pos - b.pos`. -/
theorem C3_derivative_forces_witness :
    ∃ der, UniverseDifferentiator.derivative
        ⟨10, 10, 1, 2, [⟨"a", 1, 1, 1, 0, 5⟩, ⟨"b", 2, 1, 1, 0, 5⟩]⟩
        (fun _ _ a b => a.pos - b.pos) ⟨[⟨⟨1, 1⟩, 0⟩, ⟨⟨4, 5⟩, 0⟩]⟩ = some der ∧
      der.state.length = 2 := by
  obtain ⟨der, h1, h2, _⟩ := (C3_derivative_forces
    ⟨10, 10, 1, 2, [⟨"a", 1, 1, 1, 0, 5⟩, ⟨"b", 2, 1, 1, 0, 5⟩]⟩
    (fun _ _ a b => a.pos - b.pos) ⟨[⟨⟨1, 1⟩, 0⟩, ⟨⟨4, 5⟩, 0⟩]⟩ rfl).2
  exact ⟨der, h1, h2⟩

/-! ## One Runge-Kutta step under a constant force (C6) -/

/-- The derivative of a one-particle state whose accumulated force is `F`. -/
theorem derivative_single (d : UniverseDifferentiator) (cf : PairForce) (t : ParticleType)
    (x : ParticleState) (F : Vector2D) (ht : d.particles = [t])
    (hF : d.accumulateForces cf ⟨[x]⟩ = [F]) :
    d.derivative cf ⟨[x]⟩ = some ⟨[⟨x.v, F / t.mass⟩]⟩ := by
  simp [UniverseDifferentiator.derivative, ht, hF, ParticleType.derivative, List.range_succ]

theorem add_single (a b : ParticleState) :
    UniverseState.add ⟨[a]⟩ ⟨[b]⟩ = some ⟨[a + b]⟩ := by
  simp [UniverseState.add]

theorem mul_single (a : ParticleState) (k : ℚ) :
    UniverseState.mul ⟨[a]⟩ k = ⟨[a * k]⟩ := by
  simp [UniverseState.mul]

/-- C6: a Universe of one particle of mass m > 0 whose accumulated force is the
same F at the four stage states of the step (the state itself, the two
half-step states and the full-step state): one advance(dt) of the scheme
k1..k4, s' = s + (k1 + 2*k2 + 2*k3 + k4)*(dt/6) succeeds and gives exactly
pos' = pos + v*dt + (1/2)*(F/m)*dt^2 and v' = v + (F/m)*dt. -/
theorem C6_rk4_constant_force (u : Universe) (cf : PairForce) (t : ParticleType)
    (s : ParticleState) (dt : ℚ) (F : Vector2D)
    (ht : u.diff.particles = [t]) (hs : u.state = ⟨[s]⟩) (hm : 0 < t.mass)
    (h1 : u.diff.accumulateForces cf ⟨[s]⟩ = [F])
    (h2 : u.diff.accumulateForces cf
      ⟨[⟨s.pos + s.v * (dt / 2), s.v + (F / t.mass) * (dt / 2)⟩]⟩ = [F])
    (h3 : u.diff.accumulateForces cf
      ⟨[⟨s.pos + (s.v + (F / t.mass) * (dt / 2)) * (dt / 2),
         s.v + (F / t.mass) * (dt / 2)⟩]⟩ = [F])
    (h4 : u.diff.accumulateForces cf
      ⟨[⟨s.pos + (s.v + (F / t.mass) * (dt / 2)) * dt, s.v + (F / t.mass) * dt⟩]⟩ = [F]) :
    ∃ u1, u.advance cf dt = some u1 ∧ u1.diff = u.diff ∧
      u1.state = ⟨[⟨s.pos + s.v * dt + (F / t.mass) * (dt ^ 2 / 2),
                    s.v + (F / t.mass) * dt⟩]⟩ := by
  have _ := hm
  have d1 := derivative_single u.diff cf t _ F ht h1
  have d2 := derivative_single u.diff cf t _ F ht h2
  have d3 := derivative_single u.diff cf t _ F ht h3
  have d4 := derivative_single u.diff cf t _ F ht h4
  have e2 : (s + (⟨s.v, F / t.mass⟩ : ParticleState) * (dt / 2))
      = ⟨s.pos + s.v * (dt / 2), s.v + (F / t.mass) * (dt / 2)⟩ := rfl
  have e3 : (s + (⟨s.v + (F / t.mass) * (dt / 2), F / t.mass⟩ : ParticleState) * (dt / 2))
      = ⟨s.pos + (s.v + (F / t.mass) * (dt / 2)) * (dt / 2),
         s.v + (F / t.mass) * (dt / 2)⟩ := rfl
  have e4 : (s + (⟨s.v + (F / t.mass) * (dt / 2), F / t.mass⟩ : ParticleState) * dt)
      = ⟨s.pos + (s.v + (F / t.mass) * (dt / 2)) * dt, s.v + (F / t.mass) * dt⟩ := rfl
  have hadv : advanceRungeKutta4 (u.diff.derivative cf) u.state dt
      = some ⟨[⟨s.pos + s.v * dt + (F / t.mass) * (dt ^ 2 / 2), s.v + (F / t.mass) * dt⟩]⟩ := by
    rw [hs]
    simp only [advanceRungeKutta4, Option.bind_eq_bind, Option.some_bind, d1, mul_single,
      add_single, e2, d2, e3, d3, e4, d4]
    congr 3
    ext <;> simp <;> ring
  refine ⟨⟨u.diff, ⟨[⟨s.pos + s.v * dt + (F / t.mass) * (dt ^ 2 / 2),
    s.v + (F / t.mass) * dt⟩]⟩⟩, ?_, rfl, rfl⟩
  simp only [Universe.advance, hadv, Option.map_some']

/-- The accumulated force of a lone particle: walls and gravity only. -/
theorem accumulateForces_single (d : UniverseDifferentiator) (cf : PairForce)
    (t : ParticleType) (x : ParticleState) (ht : d.particles = [t]) :
    d.accumulateForces cf ⟨[x]⟩ = [d.applyGravity t (d.applyBounds x 0)] := by
  simp [UniverseDifferentiator.accumulateForces, UniverseDifferentiator.forceStep,
    UniverseDifferentiator.pairLoop, ht, List.range_succ]

/-- Witness for C6: one particle of mass 2 at (50, 50) with velocity (1, 0) in
a world of size 100 x 100 under gravity 10, so the force is (0, 20) at every
stage; one step with dt = 1 gives position (51, 55) and velocity (1, 10). -/
theorem C6_rk4_constant_force_witness :
    ∃ u1, Universe.advance
        ⟨⟨100, 100, 1, 10, [⟨"a", 2, 1, 1, 0, 5⟩]⟩, ⟨[⟨⟨50, 50⟩, ⟨1, 0⟩⟩]⟩⟩
        (fun _ _ a b => a.pos - b.pos) 1 = some u1 ∧
      u1.state = ⟨[⟨⟨51, 55⟩, ⟨1, 10⟩⟩]⟩ := by
  obtain ⟨u1, ha, _, hst⟩ := C6_rk4_constant_force
    ⟨⟨100, 100, 1, 10, [⟨"a", 2, 1, 1, 0, 5⟩]⟩, ⟨[⟨⟨50, 50⟩, ⟨1, 0⟩⟩]⟩⟩
    (fun _ _ a b => a.pos - b.pos) ⟨"a", 2, 1, 1, 0, 5⟩ ⟨⟨50, 50⟩, ⟨1, 0⟩⟩ 1 ⟨0, 20⟩ rfl rfl
    (by norm_num)
    (by
      rw [accumulateForces_single _ _ _ _ rfl]
      simp only [UniverseDifferentiator.applyGravity, UniverseDifferentiator.applyBounds,
        UniverseDifferentiator.boundForce, Vector2D.zero_x, Vector2D.zero_y, Vector2D.add_x,
        Vector2D.add_y, Vector2D.mul_x, Vector2D.mul_y, Vector2D.div_x, Vector2D.div_y]
      norm_num)
    (by
      rw [accumulateForces_single _ _ _ _ rfl]
      simp only [UniverseDifferentiator.applyGravity, UniverseDifferentiator.applyBounds,
        UniverseDifferentiator.boundForce, Vector2D.zero_x, Vector2D.zero_y, Vector2D.add_x,
        Vector2D.add_y, Vector2D.mul_x, Vector2D.mul_y, Vector2D.div_x, Vector2D.div_y]
      norm_num)
    (by
      rw [accumulateForces_single _ _ _ _ rfl]
      simp only [UniverseDifferentiator.applyGravity, UniverseDifferentiator.applyBounds,
        UniverseDifferentiator.boundForce, Vector2D.zero_x, Vector2D.zero_y, Vector2D.add_x,
        Vector2D.add_y, Vector2D.mul_x, Vector2D.mul_y, Vector2D.div_x, Vector2D.div_y]
      norm_num)
    (by
      rw [accumulateForces_single _ _ _ _ rfl]
      simp only [UniverseDifferentiator.applyGravity, UniverseDifferentiator.applyBounds,
        UniverseDifferentiator.boundForce, Vector2D.zero_x, Vector2D.zero_y, Vector2D.add_x,
        Vector2D.add_y, Vector2D.mul_x, Vector2D.mul_y, Vector2D.div_x, Vector2D.div_y]
      norm_num)
  refine ⟨u1, ha, ?_⟩
  rw [hst]
  congr 3
  · ext
    · simp only [Vector2D.add_x, Vector2D.mul_x, Vector2D.div_x]; norm_num
    · simp only [Vector2D.add_y, Vector2D.mul_y, Vector2D.div_y]; norm_num
  · ext
    · simp only [Vector2D.add_x, Vector2D.mul_x, Vector2D.div_x]; norm_num
    · simp only [Vector2D.add_y, Vector2D.mul_y, Vector2D.div_y]; norm_num

/-! ## Spawn count in create mode (C10) -/

namespace UniverseModifier

/-- Unless `sign == -1`, the loop body keeps the particle and draws nothing. -/
theorem modifyParticle_keeps (handler : CallbackHandler) (dT : ℚ) (state : ParticleState)
    (g : RandomGenerator) (h : handler.sign ≠ -1) :
    ∃ s1, modifyParticle handler dT state g = (some s1, g) := by
  unfold modifyParticle
  by_cases hin : (state.pos - handler.pos).magnitudeLt handler.radius = true
  · rw [if_pos hin]
    cases handler.action with
    | heat => exact ⟨_, rfl⟩
    | push =>
      simp only
      split_ifs
      · exact ⟨_, rfl⟩
      · exact ⟨_, rfl⟩
      · exact ⟨_, rfl⟩
    | create =>
      simp only [removalTrial, if_neg h]
      exact ⟨_, rfl⟩
    | spray =>
      simp only [removalTrial, if_neg h]
      exact ⟨_, rfl⟩
  · rw [if_neg hin]
    exact ⟨_, rfl⟩

/-- Unless `sign == -1`, the existing-particle loop keeps the length of both
sequences and hands the generator back untouched. -/
theorem modifyExistingLoop_keeps (handler : CallbackHandler) (dT : ℚ) (h : handler.sign ≠ -1)
    (g : RandomGenerator) :
    ∀ (ss : List ParticleState) (ts : List ParticleType),
      (modifyExistingLoop handler dT ts ss g).1.length = ts.length ∧
      (modifyExistingLoop handler dT ts ss g).2.1.length = ss.length ∧
      (modifyExistingLoop handler dT ts ss g).2.2 = g
  | [], ts => by simp [modifyExistingLoop]
  | s :: ss, ts => by
    obtain ⟨s1, hs1⟩ := modifyParticle_keeps handler dT s g h
    obtain ⟨h1, h2, h3⟩ := modifyExistingLoop_keeps handler dT h g ss ts.tail
    simp only [modifyExistingLoop, hs1, List.length_append, List.length_cons, h1, h2, h3,
      List.length_take, List.length_tail, and_true]
    cases ts with
    | nil => simp
    | cons t ts => simp only [List.length_cons, List.length_nil]; omega

/-- The spawn loop appends one species and one state per pass. -/
theorem createLoop_lengths (sm : Sampling) (handler : CallbackHandler) (type : ParticleType) :
    ∀ (n : Nat) (u : Universe) (g : RandomGenerator),
      (createLoop sm handler type n u g).1.diff.particles.length
        = u.diff.particles.length + n ∧
      (createLoop sm handler type n u g).1.state.state.length = u.state.state.length + n
  | 0, u, g => by simp [createLoop]
  | n + 1, u, g => by
    obtain ⟨h1, h2⟩ := createLoop_lengths sm handler type n
      (u.addParticle type (ParticleState.ofPos (u.clampInto (handler.pos +
        ⟨sm.rDistr (creationRadiusCoef * handler.radius) ((g.draw).2.draw).1
            * sm.cos (sm.phiDistr (g.draw).1),
          sm.rDistr (creationRadiusCoef * handler.radius) ((g.draw).2.draw).1
            * sm.sin (sm.phiDistr (g.draw).1)⟩))))
      ((g.draw).2.draw).2
    simp only [createLoop]
    refine ⟨h1.trans ?_, h2.trans ?_⟩
    · simp only [Universe.addParticle, List.length_append, List.length_cons, List.length_nil]
      omega
    · simp only [Universe.addParticle, List.length_append, List.length_cons, List.length_nil]
      omega

end UniverseModifier

/-! ### Binary64 rounding -/

theorem roundHalfEven_of_lt (x : ℚ) (z : Int) (h1 : (z : ℚ) ≤ x) (h2 : x - z < 1 / 2) :
    roundHalfEven x = z := by
  have hf : ⌊x⌋ = z := by
    rw [Int.floor_eq_iff]; constructor <;> linarith
  simp only [roundHalfEven, hf, if_pos h2]

theorem roundHalfEven_of_gt (x : ℚ) (z : Int) (h1 : 1 / 2 < x - z) (h2 : x < z + 1) :
    roundHalfEven x = z + 1 := by
  have hf : ⌊x⌋ = z := by
    rw [Int.floor_eq_iff]; constructor <;> linarith
  have hn : ¬ x - z < 1 / 2 := by linarith
  simp only [roundHalfEven, hf, if_neg hn, if_pos h1]

theorem roundHalfEven_tie_odd (x : ℚ) (z : Int) (h1 : x - z = 1 / 2) (h2 : z % 2 = 1) :
    roundHalfEven x = z + 1 := by
  have hf : ⌊x⌋ = z := by
    rw [Int.floor_eq_iff]; constructor <;> linarith
  have hn : ¬ x - z < 1 / 2 := by linarith
  have hn2 : ¬ 1 / 2 < x - z := by linarith
  have hn3 : ¬ z % 2 = 0 := by omega
  simp only [roundHalfEven, hf, if_neg hn, if_neg hn2, if_neg hn3]

theorem roundHalfEven_nonneg (x : ℚ) (h : 0 ≤ x) : 0 ≤ roundHalfEven x := by
  have hf : (0 : Int) ≤ ⌊x⌋ := Int.floor_nonneg.mpr h
  unfold roundHalfEven
  simp only
  split_ifs <;> omega

theorem roundToDouble_nonneg (q : ℚ) (h : 0 ≤ q) : 0 ≤ roundToDouble q := by
  unfold roundToDouble
  split_ifs
  · exact le_refl _
  · have hp : (0 : ℚ) < (2 : ℚ) ^ (Int.log 2 |q| - 52) := zpow_pos (by norm_num) _
    have hx : 0 ≤ q / (2 : ℚ) ^ (Int.log 2 |q| - 52) := div_nonneg h hp.le
    have := roundHalfEven_nonneg _ hx
    exact mul_nonneg (by exact_mod_cast this) hp.le

/-- The rounding of a positive value whose binade is known. -/
theorem roundToDouble_eq (q : ℚ) (e : Int) (h1 : (2 : ℚ) ^ e ≤ q) (h2 : q < (2 : ℚ) ^ (e + 1)) :
    roundToDouble q = (roundHalfEven (q / (2 : ℚ) ^ (e - 52)) : ℚ) * (2 : ℚ) ^ (e - 52) := by
  have hq : 0 < q := lt_of_lt_of_le (zpow_pos (by norm_num) _) h1
  have habs : |q| = q := abs_of_pos hq
  have hlog : Int.log 2 q = e := by
    apply le_antisymm
    · have : Int.log 2 q < e + 1 := by
        rw [← Int.lt_zpow_iff_log_lt (by norm_num) hq]; exact_mod_cast h2
      omega
    · rw [← Int.zpow_le_iff_le_log (by norm_num) hq]; exact_mod_cast h1
  unfold roundToDouble
  rw [if_neg (ne_of_gt hq), habs, hlog]

theorem floor_le_roundHalfEven (x : ℚ) : ⌊x⌋ ≤ roundHalfEven x := by
  unfold roundHalfEven
  simp only
  split_ifs <;> omega

theorem roundHalfEven_le (x : ℚ) : (roundHalfEven x : ℚ) ≤ x + 1 / 2 := by
  have h1 : (⌊x⌋ : ℚ) ≤ x := Int.floor_le x
  unfold roundHalfEven
  simp only
  split_ifs with a b c
  · linarith
  · push_cast; linarith
  · linarith
  · push_cast
    have : x - ⌊x⌋ = 1 / 2 := le_antisymm (not_lt.mp b) (not_lt.mp a)
    linarith

theorem roundToDouble_of_pos (q : ℚ) (hq : 0 < q) :
    roundToDouble q
      = (roundHalfEven (q / (2 : ℚ) ^ (Int.log 2 q - 52)) : ℚ) * (2 : ℚ) ^ (Int.log 2 q - 52) := by
  unfold roundToDouble
  rw [if_neg (ne_of_gt hq), abs_of_pos hq]

theorem zpow_log_le (q : ℚ) (hq : 0 < q) : (2 : ℚ) ^ Int.log 2 q ≤ q := by
  have := Int.zpow_log_le_self (b := 2) (by norm_num) hq
  exact_mod_cast this

/-- Rounding a positive value adds at most the relative error 2^-53. -/
theorem roundToDouble_le (q : ℚ) (hq : 0 < q) :
    roundToDouble q ≤ q + q / 9007199254740992 := by
  have hu : (0 : ℚ) < (2 : ℚ) ^ (Int.log 2 q - 52) := zpow_pos (by norm_num) _
  have hsplit : (2 : ℚ) ^ (Int.log 2 q - 52) = (2 : ℚ) ^ Int.log 2 q / 4503599627370496 := by
    rw [zpow_sub₀ (by norm_num)]; norm_num
  have hle := zpow_log_le q hq
  have hr := roundHalfEven_le (q / (2 : ℚ) ^ (Int.log 2 q - 52))
  rw [roundToDouble_of_pos q hq]
  calc (roundHalfEven (q / (2 : ℚ) ^ (Int.log 2 q - 52)) : ℚ) * (2 : ℚ) ^ (Int.log 2 q - 52)
      ≤ (q / (2 : ℚ) ^ (Int.log 2 q - 52) + 1 / 2) * (2 : ℚ) ^ (Int.log 2 q - 52) :=
        mul_le_mul_of_nonneg_right hr hu.le
    _ = q + (2 : ℚ) ^ (Int.log 2 q - 52) / 2 := by field_simp; ring
    _ ≤ q + q / 9007199254740992 := by rw [hsplit]; linarith

/-- Rounding never falls below the power of two that starts the binade. -/
theorem zpow_log_le_roundToDouble (q : ℚ) (hq : 0 < q) :
    (2 : ℚ) ^ Int.log 2 q ≤ roundToDouble q := by
  have hu : (0 : ℚ) < (2 : ℚ) ^ (Int.log 2 q - 52) := zpow_pos (by norm_num) _
  have hsplit : (2 : ℚ) ^ Int.log 2 q = 4503599627370496 * (2 : ℚ) ^ (Int.log 2 q - 52) := by
    rw [zpow_sub₀ (by norm_num)]; norm_num; ring
  have hx : ((4503599627370496 : Int) : ℚ) ≤ q / (2 : ℚ) ^ (Int.log 2 q - 52) := by
    rw [le_div_iff₀ hu]; push_cast; rw [← hsplit]; exact zpow_log_le q hq
  have hf : (4503599627370496 : Int) ≤ roundHalfEven (q / (2 : ℚ) ^ (Int.log 2 q - 52)) :=
    le_trans (Int.le_floor.mpr hx) (floor_le_roundHalfEven _)
  have hf2 : (4503599627370496 : ℚ) ≤ (roundHalfEven (q / (2 : ℚ) ^ (Int.log 2 q - 52)) : ℚ) := by
    exact_mod_cast hf
  rw [roundToDouble_of_pos q hq, hsplit]
  exact mul_le_mul_of_nonneg_right hf2 hu.le

/-- Below 2^53 rounding never falls below an integer that the value reaches. -/
theorem intCast_le_roundToDouble (q : ℚ) (k : Int) (hq : 0 < q) (hk : (k : ℚ) ≤ q)
    (hL : Int.log 2 q ≤ 52) : (k : ℚ) ≤ roundToDouble q := by
  have hu : (0 : ℚ) < (2 : ℚ) ^ (Int.log 2 q - 52) := zpow_pos (by norm_num) _
  have hinv : (2 : ℚ) ^ (Int.log 2 q - 52) = ((2 : ℚ) ^ (52 - Int.log 2 q).toNat)⁻¹ := by
    rw [← zpow_natCast, ← zpow_neg, Int.toNat_of_nonneg (by omega)]
    congr 1; omega
  have hx : ((k * 2 ^ (52 - Int.log 2 q).toNat : Int) : ℚ) ≤ q / (2 : ℚ) ^ (Int.log 2 q - 52) := by
    rw [hinv, div_inv_eq_mul]; push_cast
    exact mul_le_mul_of_nonneg_right hk (by positivity)
  have hf : (k * 2 ^ (52 - Int.log 2 q).toNat : Int)
      ≤ roundHalfEven (q / (2 : ℚ) ^ (Int.log 2 q - 52)) :=
    le_trans (Int.le_floor.mpr hx) (floor_le_roundHalfEven _)
  have hf2 : (k : ℚ) * (2 : ℚ) ^ (52 - Int.log 2 q).toNat
      ≤ (roundHalfEven (q / (2 : ℚ) ^ (Int.log 2 q - 52)) : ℚ) := by
    exact_mod_cast hf
  rw [roundToDouble_of_pos q hq]
  have hpos : (0 : ℚ) < (2 : ℚ) ^ (52 - Int.log 2 q).toNat := by positivity
  calc (k : ℚ) = (k : ℚ) * (2 : ℚ) ^ (52 - Int.log 2 q).toNat
        * (2 : ℚ) ^ (Int.log 2 q - 52) := by rw [hinv]; field_simp
    _ ≤ _ := mul_le_mul_of_nonneg_right hf2 hu.le

/-- A value whose rounding is below 2^53 lies in a binade below 2^53. -/
theorem log_le_of_roundToDouble_lt (q : ℚ) (hq : 0 < q)
    (h : roundToDouble q < 9007199254740992) : Int.log 2 q ≤ 52 := by
  by_contra hc
  have h53 : (53 : Int) ≤ Int.log 2 q := by omega
  have h1 : (2 : ℚ) ^ (53 : Int) ≤ (2 : ℚ) ^ Int.log 2 q := zpow_le_zpow_right₀ (by norm_num) h53
  have h2 := zpow_log_le_roundToDouble q hq
  have h3 : (2 : ℚ) ^ (53 : Int) = 9007199254740992 := by norm_num
  linarith
/-- A positive value is below twice its rounding. -/
theorem lt_two_mul_roundToDouble (q : ℚ) (hq : 0 < q) : q < 2 * roundToDouble q := by
  have h1 : q < (2 : ℚ) ^ (Int.log 2 q + 1) := by
    have := Int.lt_zpow_succ_log_self (b := 2) (by norm_num) q
    exact_mod_cast this
  have h2 : (2 : ℚ) ^ (Int.log 2 q + 1) = 2 * (2 : ℚ) ^ Int.log 2 q := by
    rw [zpow_add₀ (by norm_num)]; norm_num; ring
  have h3 := zpow_log_le_roundToDouble q hq
  linarith

/-- The double nearest to 0.04 is 5764607523034235 / 2^57. -/
theorem roundToDouble_newParticlesCoef :
    roundToDouble UniverseModifier.newParticlesCoef = 5764607523034235 / 144115188075855872 := by
  unfold UniverseModifier.newParticlesCoef
  rw [roundToDouble_eq _ (-5) (by norm_num) (by norm_num),
    roundHalfEven_of_gt _ 5764607523034234 (by norm_num) (by norm_num)]
  norm_num

/-- At radius 100 the machine value of `0.04 * radius + 1` is exactly 5. -/
theorem newParticlesValue_100 : UniverseModifier.newParticlesValue 100 = 5 := by
  have hp : roundToDouble ((5764607523034235 / 144115188075855872 : ℚ) * 100) = 4 := by
    rw [roundToDouble_eq _ 2 (by norm_num) (by norm_num),
      roundHalfEven_of_lt _ 4503599627370496 (by norm_num) (by norm_num)]
    norm_num
  have hy : roundToDouble ((4 : ℚ) + 1) = 5 := by
    rw [roundToDouble_eq _ 2 (by norm_num) (by norm_num),
      roundHalfEven_of_lt _ 5629499534213120 (by norm_num) (by norm_num)]
    norm_num
  unfold UniverseModifier.newParticlesValue
  rw [roundToDouble_newParticlesCoef, hp, hy]

/-- At radius 25 - 2^-48 the product rounds to 1 - 2^-53 and the sum, a tie,
rounds to the even neighbour 2. -/
theorem newParticlesValue_edge :
    UniverseModifier.newParticlesValue (7036874417766399 / 281474976710656) = 2 := by
  have hp : roundToDouble ((5764607523034235 / 144115188075855872 : ℚ)
      * (7036874417766399 / 281474976710656)) = 9007199254740991 / 9007199254740992 := by
    rw [roundToDouble_eq _ (-1) (by norm_num) (by norm_num),
      roundHalfEven_of_gt _ 9007199254740990 (by norm_num) (by norm_num)]
    norm_num
  have hy : roundToDouble ((9007199254740991 / 9007199254740992 : ℚ) + 1) = 2 := by
    rw [roundToDouble_eq _ 0 (by norm_num) (by norm_num),
      roundHalfEven_tie_odd _ 9007199254740991 (by norm_num) (by decide)]
    norm_num
  unfold UniverseModifier.newParticlesValue
  rw [roundToDouble_newParticlesCoef, hp, hy]

/-- The machine value of `0.04 * radius + 1` is non-negative for a
non-negative radius. -/
theorem newParticlesValue_nonneg (radius : ℚ) (hr : 0 ≤ radius) :
    0 ≤ UniverseModifier.newParticlesValue radius := by
  unfold UniverseModifier.newParticlesValue
  apply roundToDouble_nonneg
  have h1 : 0 ≤ roundToDouble UniverseModifier.newParticlesCoef := by
    rw [roundToDouble_newParticlesCoef]; norm_num
  have h2 := roundToDouble_nonneg _ (mul_nonneg h1 hr)
  linarith

/-- The integer part of the machine value of `0.04 * radius + 1`, when it fits
an `int`, is `floor(0.04 * radius) + 1` or one more. -/
theorem newParticlesValue_bounds (radius : ℚ) (hr : 0 < radius)
    (hfit : UniverseModifier.newParticlesValue radius < 2147483648) :
    ⌊(0.04 : ℚ) * radius⌋ + 1 ≤ ⌊UniverseModifier.newParticlesValue radius⌋ ∧
    ⌊UniverseModifier.newParticlesValue radius⌋ ≤ ⌊(0.04 : ℚ) * radius⌋ + 2 := by
  unfold UniverseModifier.newParticlesValue at hfit ⊢
  rw [roundToDouble_newParticlesCoef] at hfit ⊢
  have hc1 : (0.04 : ℚ) ≤ 5764607523034235 / 144115188075855872 := by norm_num
  have hp : (0 : ℚ) < 5764607523034235 / 144115188075855872 * radius :=
    mul_pos (by norm_num) hr
  have hP0 := roundToDouble_nonneg _ hp.le
  have hy : (0 : ℚ) < roundToDouble (5764607523034235 / 144115188075855872 * radius) + 1 := by
    linarith
  have hLy := log_le_of_roundToDouble_lt _ hy (by linarith)
  have hy2 := lt_two_mul_roundToDouble _ hy
  have hLp := log_le_of_roundToDouble_lt _ hp (by linarith)
  have hk : ((⌊(0.04 : ℚ) * radius⌋ : Int) : ℚ)
      ≤ 5764607523034235 / 144115188075855872 * radius :=
    le_trans (Int.floor_le _) (mul_le_mul_of_nonneg_right hc1 hr.le)
  have hkP := intCast_le_roundToDouble _ _ hp hk hLp
  have hk1 : ((⌊(0.04 : ℚ) * radius⌋ + 1 : Int) : ℚ)
      ≤ roundToDouble (5764607523034235 / 144115188075855872 * radius) + 1 := by
    push_cast; linarith
  have hkv := intCast_le_roundToDouble _ _ hy hk1 hLy
  refine ⟨Int.le_floor.mpr hkv, ?_⟩
  have hK : ((⌊(0.04 : ℚ) * radius⌋ + 1 : Int) : ℚ) < 2147483648 := lt_of_le_of_lt hkv hfit
  push_cast at hK hkv
  have hlt : (0.04 : ℚ) * radius < ⌊(0.04 : ℚ) * radius⌋ + 1 := Int.lt_floor_add_one _
  have hpe : 5764607523034235 / 144115188075855872 * radius
      ≤ 0.04 * radius + 0.04 * radius / 9007199254740992 := by
    have : (5764607523034235 / 144115188075855872 : ℚ)
        ≤ 0.04 + 0.04 / 9007199254740992 := by norm_num
    have := mul_le_mul_of_nonneg_right this hr.le
    linarith
  have hPe := roundToDouble_le _ hp
  have hve := roundToDouble_le _ hy
  have hv3 : roundToDouble (roundToDouble (5764607523034235 / 144115188075855872 * radius) + 1)
      < ((⌊(0.04 : ℚ) * radius⌋ + 3 : Int) : ℚ) := by
    push_cast; linarith
  have := Int.floor_lt.mpr hv3
  omega

/-- The conversion to `int` of a non-negative value that fits. -/
theorem doubleToInt_of_nonneg (q : ℚ) (h0 : 0 ≤ q) (hfit : q < 2147483648) :
    doubleToInt q = some ⌊q⌋ := by
  have hf0 : (0 : Int) ≤ ⌊q⌋ := Int.floor_nonneg.mpr h0
  have hlt : ⌊q⌋ < 2147483648 := by
    rw [Int.floor_lt]; exact_mod_cast hfit
  unfold doubleToInt
  simp only [if_pos h0]
  rw [if_pos]
  constructor <;> omega

/-- One modify step in create mode with sign > 0, when the conversion to `int`
gives `n ≥ 0`: both sequences grow by `n`. -/
theorem modify_create_count (sm : Sampling) (u : Universe) (handler : CallbackHandler) (dT : ℚ)
    (type : ParticleType) (g : RandomGenerator) (n : Int)
    (hact : handler.action = MouseAction.create) (hs : 0 < handler.sign) (hn : 0 ≤ n)
    (hconv : doubleToInt (UniverseModifier.newParticlesValue handler.radius) = some n) :
    ∃ u1 g1, UniverseModifier.modify sm u handler dT type g = some (u1, g1) ∧
      (u1.state.state.length : Int) = u.state.state.length + n ∧
      (u1.diff.particles.length : Int) = u.diff.particles.length + n := by
  have hne : handler.sign ≠ -1 := by omega
  have hn0 : ¬ handler.sign = 0 := by omega
  have hnle : ¬ handler.sign ≤ 0 := by omega
  obtain ⟨k1, k2, _⟩ := UniverseModifier.modifyExistingLoop_keeps handler dT hne g
    u.state.state u.diff.particles
  obtain ⟨c1, c2⟩ := UniverseModifier.createLoop_lengths sm handler type n.toNat
    (UniverseModifier.modifyExisting u handler dT g).1
    (UniverseModifier.modifyExisting u handler dT g).2
  refine ⟨(UniverseModifier.createLoop sm handler type n.toNat
      (UniverseModifier.modifyExisting u handler dT g).1
      (UniverseModifier.modifyExisting u handler dT g).2).1,
    (UniverseModifier.createLoop sm handler type n.toNat
      (UniverseModifier.modifyExisting u handler dT g).1
      (UniverseModifier.modifyExisting u handler dT g).2).2, ?_, ?_, ?_⟩
  · simp only [UniverseModifier.modify, if_neg hn0, UniverseModifier.addNew, if_neg hnle, hact,
      hconv]
  · rw [c2]
    simp only [UniverseModifier.modifyExisting, k2]
    push_cast
    rw [Int.toNat_of_nonneg hn]
  · rw [c1]
    simp only [UniverseModifier.modifyExisting, k1]
    push_cast
    rw [Int.toNat_of_nonneg hn]

/-- C10 as stated fails: in create mode with sign 1 and radius 25 - 2^-48 the
claimed count is floor(0.04 * radius) + 1 = 1, but the double product
0.04 * radius rounds to 1 - 2^-53, the double sum with 1 is a tie that rounds
to 2, and one modify step adds 2 particles. -/
theorem C10_spawn_count_counterexample :
    (0 : Int) < (CallbackHandler.mk MouseAction.create ⟨50, 50⟩ true false 1
      (7036874417766399 / 281474976710656)).sign ∧
    (0 : ℚ) < (CallbackHandler.mk MouseAction.create ⟨50, 50⟩ true false 1
      (7036874417766399 / 281474976710656)).radius ∧
    ⌊(0.04 : ℚ) * (7036874417766399 / 281474976710656)⌋ + 1 = 1 ∧
    ∃ u1 g1, UniverseModifier.modify ⟨id, fun _ q => q, id, id⟩ (Universe.new 100 100 1 0)
        ⟨MouseAction.create, ⟨50, 50⟩, true, false, 1, 7036874417766399 / 281474976710656⟩
        1 default ⟨fun _ => 0, 0⟩ = some (u1, g1) ∧
      u1.state.state.length = 2 ∧ u1.diff.particles.length = 2 := by
  have hconv : doubleToInt (UniverseModifier.newParticlesValue
      (7036874417766399 / 281474976710656)) = some 2 := by
    rw [newParticlesValue_edge, doubleToInt_of_nonneg 2 (by norm_num) (by norm_num)]
    norm_num
  have hfl : ⌊(0.04 : ℚ) * (7036874417766399 / 281474976710656)⌋ = 0 := by
    rw [Int.floor_eq_iff]; constructor <;> norm_num
  obtain ⟨u1, g1, h1, h2, h3⟩ := modify_create_count ⟨id, fun _ q => q, id, id⟩
    (Universe.new 100 100 1 0)
    ⟨MouseAction.create, ⟨50, 50⟩, true, false, 1, 7036874417766399 / 281474976710656⟩
    1 default ⟨fun _ => 0, 0⟩ 2 rfl (by decide) (by decide) hconv
  refine ⟨by decide, by norm_num, by rw [hfl]; rfl, u1, g1, h1, ?_, ?_⟩
  · simp only [Universe.new, List.length_nil] at h2
    omega
  · simp only [Universe.new, List.length_nil] at h3
    omega

/-- C10, amended: in create mode with sign > 0 and radius > 0, when the double
value of 0.04 * radius + 1 (literal, product and sum each rounded to binary64)
is below 2^31, one modify step succeeds and increases the particle count (both
sequences) by exactly the integer part of that double value, whatever the
random draws are; that integer part is floor(0.04 * radius) + 1 or one more,
and with radius = 100 it is exactly 5. -/
theorem C10_spawn_count (sm : Sampling) (u : Universe) (handler : CallbackHandler) (dT : ℚ)
    (type : ParticleType) (g : RandomGenerator)
    (hact : handler.action = MouseAction.create) (hs : 0 < handler.sign)
    (hr : 0 < handler.radius)
    (hfit : UniverseModifier.newParticlesValue handler.radius < 2147483648) :
    (∃ u1 g1, UniverseModifier.modify sm u handler dT type g = some (u1, g1) ∧
      (u1.state.state.length : Int)
        = u.state.state.length + ⌊UniverseModifier.newParticlesValue handler.radius⌋ ∧
      (u1.diff.particles.length : Int)
        = u.diff.particles.length + ⌊UniverseModifier.newParticlesValue handler.radius⌋) ∧
    (⌊(0.04 : ℚ) * handler.radius⌋ + 1 ≤ ⌊UniverseModifier.newParticlesValue handler.radius⌋ ∧
      ⌊UniverseModifier.newParticlesValue handler.radius⌋
        ≤ ⌊(0.04 : ℚ) * handler.radius⌋ + 2) ∧
    (handler.radius = 100 → ⌊UniverseModifier.newParticlesValue handler.radius⌋ = 5) := by
  have h0 := newParticlesValue_nonneg handler.radius hr.le
  refine ⟨modify_create_count sm u handler dT type g _ hact hs (Int.floor_nonneg.mpr h0)
    (doubleToInt_of_nonneg _ h0 hfit), newParticlesValue_bounds handler.radius hr hfit, ?_⟩
  intro h100
  rw [h100, newParticlesValue_100]
  norm_num

/-- Witness for C10: radius 100 on a Universe of one particle: the double value
is exactly 5 and the count grows by exactly 5. -/
theorem C10_spawn_count_witness :
    ∃ u1 g1, UniverseModifier.modify ⟨id, fun _ q => q, id, id⟩
        ((Universe.new 500 500 1 0).addParticle default default)
        ⟨MouseAction.create, ⟨50, 50⟩, true, false, 1, 100⟩ 1 default ⟨fun _ => 0, 0⟩
        = some (u1, g1) ∧
      u1.state.state.length = 1 + 5 ∧ u1.diff.particles.length = 1 + 5 := by
  obtain ⟨u1, g1, h1, h2, h3⟩ := (C10_spawn_count ⟨id, fun _ q => q, id, id⟩
    ((Universe.new 500 500 1 0).addParticle default default)
    ⟨MouseAction.create, ⟨50, 50⟩, true, false, 1, 100⟩ 1 default ⟨fun _ => 0, 0⟩
    rfl (by decide) (by norm_num) (by rw [newParticlesValue_100]; norm_num)).1
  have hfl : ⌊UniverseModifier.newParticlesValue 100⌋ = 5 := by
    rw [newParticlesValue_100]; norm_num
  refine ⟨u1, g1, h1, ?_, ?_⟩
  · simp only [hfl, Universe.new, Universe.addParticle, List.nil_append, List.length_cons,
      List.length_nil] at h2
    omega
  · simp only [hfl, Universe.new, Universe.addParticle, List.nil_append, List.length_cons,
      List.length_nil] at h3
    omega

/-! ## The pointer callback (C16, C17) -/

/-- C16: after mouseCallback handles the wheel event, for every wheel delta
and every previous radius, the radius lies in [10, 200]; every other event
leaves the radius unchanged; so a radius in [10, 200] stays in [10, 200] under
every mouseCallback call. -/
theorem C16_radius_range (getMouseWheelDelta : Int → Int) (event x y flags : Int)
    (handler : CallbackHandler) :
    (event = CV_EVENT_MOUSEHWHEEL →
      10 ≤ (handler.mouseCallback getMouseWheelDelta event x y flags).radius ∧
      (handler.mouseCallback getMouseWheelDelta event x y flags).radius ≤ 200) ∧
    (event ≠ CV_EVENT_MOUSEHWHEEL →
      (handler.mouseCallback getMouseWheelDelta event x y flags).radius = handler.radius) ∧
    (10 ≤ handler.radius → handler.radius ≤ 200 →
      10 ≤ (handler.mouseCallback getMouseWheelDelta event x y flags).radius ∧
      (handler.mouseCallback getMouseWheelDelta event x y flags).radius ≤ 200) := by
  have hwheel : event = CV_EVENT_MOUSEHWHEEL →
      10 ≤ (handler.mouseCallback getMouseWheelDelta event x y flags).radius ∧
      (handler.mouseCallback getMouseWheelDelta event x y flags).radius ≤ 200 := by
    intro he
    subst he
    simp only [CallbackHandler.mouseCallback, CV_EVENT_MOUSEHWHEEL, CV_EVENT_LBUTTONDOWN,
      CV_EVENT_LBUTTONUP, CV_EVENT_RBUTTONDOWN, CV_EVENT_RBUTTONUP]
    norm_num
  have hother : event ≠ CV_EVENT_MOUSEHWHEEL →
      (handler.mouseCallback getMouseWheelDelta event x y flags).radius = handler.radius := by
    intro he
    simp only [CallbackHandler.mouseCallback, if_neg he]
    split_ifs <;> rfl
  refine ⟨hwheel, hother, ?_⟩
  intro h1 h2
  by_cases he : event = CV_EVENT_MOUSEHWHEEL
  · exact hwheel he
  · rw [hother he]; exact ⟨h1, h2⟩

/-- Witness for C16: a wheel event with delta 3 on radius 150, and a button
event on radius 150. -/
theorem C16_radius_range_witness :
    (10 ≤ (CallbackHandler.mouseCallback (fun _ => 3) 11 5 5 0
        ⟨MouseAction.heat, ⟨0, 0⟩, false, false, 0, 150⟩).radius ∧
      (CallbackHandler.mouseCallback (fun _ => 3) 11 5 5 0
        ⟨MouseAction.heat, ⟨0, 0⟩, false, false, 0, 150⟩).radius ≤ 200) ∧
    (CallbackHandler.mouseCallback (fun _ => 3) 1 5 5 0
        ⟨MouseAction.heat, ⟨0, 0⟩, false, false, 0, 150⟩).radius = 150 :=
  ⟨(C16_radius_range (fun _ => 3) 11 5 5 0
      ⟨MouseAction.heat, ⟨0, 0⟩, false, false, 0, 150⟩).1 rfl,
   (C16_radius_range (fun _ => 3) 1 5 5 0
      ⟨MouseAction.heat, ⟨0, 0⟩, false, false, 0, 150⟩).2.1 (by decide)⟩

/-- The left-button flag after one call. -/
theorem mouseCallback_leftDown (getMouseWheelDelta : Int → Int) (event x y flags : Int)
    (handler : CallbackHandler) :
    (handler.mouseCallback getMouseWheelDelta event x y flags).leftDown
      = (if event = CV_EVENT_LBUTTONDOWN then true
         else if event = CV_EVENT_LBUTTONUP then false else handler.leftDown) := by
  simp only [CallbackHandler.mouseCallback]
  split_ifs <;> rfl

/-- The right-button flag after one call. -/
theorem mouseCallback_rightDown (getMouseWheelDelta : Int → Int) (event x y flags : Int)
    (handler : CallbackHandler) :
    (handler.mouseCallback getMouseWheelDelta event x y flags).rightDown
      = (if event = CV_EVENT_RBUTTONDOWN then true
         else if event = CV_EVENT_RBUTTONUP then false else handler.rightDown) := by
  simp only [CallbackHandler.mouseCallback, CV_EVENT_LBUTTONDOWN, CV_EVENT_LBUTTONUP,
    CV_EVENT_RBUTTONDOWN, CV_EVENT_RBUTTONUP]
  split_ifs <;> first | rfl | omega

/-- The sign after one call is computed from the flags after that call. -/
theorem mouseCallback_sign (getMouseWheelDelta : Int → Int) (event x y flags : Int)
    (handler : CallbackHandler) :
    (handler.mouseCallback getMouseWheelDelta event x y flags).sign
      = (if (handler.mouseCallback getMouseWheelDelta event x y flags).leftDown then 1 else 0)
        - (if (handler.mouseCallback getMouseWheelDelta event x y flags).rightDown
            then 1 else 0) := rfl

theorem runCallbacks_leftDown (getMouseWheelDelta : Int → Int) :
    ∀ (events : List MouseEvent) (handler : CallbackHandler),
      (runCallbacks getMouseWheelDelta events handler).leftDown
        = buttonHeldSpec CV_EVENT_LBUTTONDOWN CV_EVENT_LBUTTONUP handler.leftDown events
  | [], _ => rfl
  | e :: es, handler => by
    rw [runCallbacks, buttonHeldSpec, runCallbacks_leftDown getMouseWheelDelta es,
      mouseCallback_leftDown]

theorem runCallbacks_rightDown (getMouseWheelDelta : Int → Int) :
    ∀ (events : List MouseEvent) (handler : CallbackHandler),
      (runCallbacks getMouseWheelDelta events handler).rightDown
        = buttonHeldSpec CV_EVENT_RBUTTONDOWN CV_EVENT_RBUTTONUP handler.rightDown events
  | [], _ => rfl
  | e :: es, handler => by
    rw [runCallbacks, buttonHeldSpec, runCallbacks_rightDown getMouseWheelDelta es,
      mouseCallback_rightDown]

theorem runCallbacks_sign (getMouseWheelDelta : Int → Int) :
    ∀ (events : List MouseEvent) (handler : CallbackHandler), events ≠ [] →
      (runCallbacks getMouseWheelDelta events handler).sign
        = (if (runCallbacks getMouseWheelDelta events handler).leftDown then 1 else 0)
          - (if (runCallbacks getMouseWheelDelta events handler).rightDown then 1 else 0)
  | [], _, h => absurd rfl h
  | [e], handler, _ => by
    simp only [runCallbacks]
    exact mouseCallback_sign getMouseWheelDelta e.event e.x e.y e.flags handler
  | e :: e1 :: es, handler, _ => by
    rw [runCallbacks]
    exact runCallbacks_sign getMouseWheelDelta (e1 :: es) _ (by simp)

/-- C17: after every mouseCallback call, for every sequence of events
delivered up to and including that call and every earlier handler state: the
left (right) flag says whether the left (right) button is held, that is,
whether its last down-or-up event was a down event; the sign equals
(leftDown ? 1 : 0) - (rightDown ? 1 : 0); it is -1, 0 or +1; and it is 0
exactly when both buttons or neither button is held. -/
theorem C17_sign_from_buttons (getMouseWheelDelta : Int → Int) (events : List MouseEvent)
    (handler : CallbackHandler) (hne : events ≠ []) :
    (runCallbacks getMouseWheelDelta events handler).leftDown
      = buttonHeldSpec CV_EVENT_LBUTTONDOWN CV_EVENT_LBUTTONUP handler.leftDown events ∧
    (runCallbacks getMouseWheelDelta events handler).rightDown
      = buttonHeldSpec CV_EVENT_RBUTTONDOWN CV_EVENT_RBUTTONUP handler.rightDown events ∧
    (runCallbacks getMouseWheelDelta events handler).sign
      = (if buttonHeldSpec CV_EVENT_LBUTTONDOWN CV_EVENT_LBUTTONUP handler.leftDown events
          then 1 else 0)
        - (if buttonHeldSpec CV_EVENT_RBUTTONDOWN CV_EVENT_RBUTTONUP handler.rightDown events
            then 1 else 0) ∧
    ((runCallbacks getMouseWheelDelta events handler).sign = -1 ∨
     (runCallbacks getMouseWheelDelta events handler).sign = 0 ∨
     (runCallbacks getMouseWheelDelta events handler).sign = 1) ∧
    ((runCallbacks getMouseWheelDelta events handler).sign = 0 ↔
      buttonHeldSpec CV_EVENT_LBUTTONDOWN CV_EVENT_LBUTTONUP handler.leftDown events
        = buttonHeldSpec CV_EVENT_RBUTTONDOWN CV_EVENT_RBUTTONUP handler.rightDown events) := by
  have hl := runCallbacks_leftDown getMouseWheelDelta events handler
  have hr := runCallbacks_rightDown getMouseWheelDelta events handler
  have hs := runCallbacks_sign getMouseWheelDelta events handler hne
  rw [hl, hr] at hs
  refine ⟨hl, hr, hs, ?_, ?_⟩
  · rw [hs]
    split_ifs <;> simp
  · rw [hs]
    split_ifs <;> simp_all

/-- Witness for C17: left down, right down, left up: the right button alone is
held and the sign is -1. -/
theorem C17_sign_from_buttons_witness :
    (runCallbacks (fun _ => 0) [⟨1, 5, 5, 0⟩, ⟨2, 5, 5, 0⟩, ⟨4, 6, 5, 0⟩]
        ⟨MouseAction.heat, ⟨0, 0⟩, false, false, 0, 100⟩).leftDown = false ∧
    (runCallbacks (fun _ => 0) [⟨1, 5, 5, 0⟩, ⟨2, 5, 5, 0⟩, ⟨4, 6, 5, 0⟩]
        ⟨MouseAction.heat, ⟨0, 0⟩, false, false, 0, 100⟩).rightDown = true ∧
    (runCallbacks (fun _ => 0) [⟨1, 5, 5, 0⟩, ⟨2, 5, 5, 0⟩, ⟨4, 6, 5, 0⟩]
        ⟨MouseAction.heat, ⟨0, 0⟩, false, false, 0, 100⟩).sign = -1 :=
  ⟨(C17_sign_from_buttons (fun _ => 0) [⟨1, 5, 5, 0⟩, ⟨2, 5, 5, 0⟩, ⟨4, 6, 5, 0⟩]
      ⟨MouseAction.heat, ⟨0, 0⟩, false, false, 0, 100⟩ (by simp)).1.trans (by decide),
   (C17_sign_from_buttons (fun _ => 0) [⟨1, 5, 5, 0⟩, ⟨2, 5, 5, 0⟩, ⟨4, 6, 5, 0⟩]
      ⟨MouseAction.heat, ⟨0, 0⟩, false, false, 0, 100⟩ (by simp)).2.1.trans (by decide),
   (C17_sign_from_buttons (fun _ => 0) [⟨1, 5, 5, 0⟩, ⟨2, 5, 5, 0⟩, ⟨4, 6, 5, 0⟩]
      ⟨MouseAction.heat, ⟨0, 0⟩, false, false, 0, 100⟩ (by simp)).2.2.1.trans (by decide)⟩

/-! ## The existing-particle pass: general facts -/

namespace UniverseModifier

theorem take_one_append_tail {α : Type} (ts : List α) : ts.take 1 ++ ts.tail = ts := by
  cases ts <;> simp

/-- When the loop body is a deterministic update `f` that draws nothing, the
loop maps `f` over the states and leaves species and generator alone. -/
theorem modifyExistingLoop_map (handler : CallbackHandler) (dT : ℚ)
    (f : ParticleState → ParticleState)
    (hf : ∀ s g, modifyParticle handler dT s g = (some (f s), g)) (g : RandomGenerator) :
    ∀ (ss : List ParticleState) (ts : List ParticleType),
      modifyExistingLoop handler dT ts ss g = (ts, ss.map f, g)
  | [], ts => by simp [modifyExistingLoop]
  | s :: ss, ts => by
    simp only [modifyExistingLoop, hf s g, modifyExistingLoop_map handler dT f hf g ss ts.tail,
      take_one_append_tail, List.map_cons]

/-- The pass as a whole under a deterministic update `f`. -/
theorem modifyExisting_map (u : Universe) (handler : CallbackHandler) (dT : ℚ)
    (f : ParticleState → ParticleState)
    (hf : ∀ s g, modifyParticle handler dT s g = (some (f s), g)) (g : RandomGenerator) :
    modifyExisting u handler dT g = (⟨u.diff, ⟨u.state.state.map f⟩⟩, g) := by
  simp only [modifyExisting, modifyExistingLoop_map handler dT f hf g]

/-- When the loop body keeps every particle, the loop keeps both lengths. -/
theorem modifyExistingLoop_lengths (handler : CallbackHandler) (dT : ℚ)
    (hk : ∀ s g, ∃ s1 g1, modifyParticle handler dT s g = (some s1, g1)) :
    ∀ (ss : List ParticleState) (ts : List ParticleType) (g : RandomGenerator),
      (modifyExistingLoop handler dT ts ss g).1.length = ts.length ∧
      (modifyExistingLoop handler dT ts ss g).2.1.length = ss.length
  | [], ts, g => by simp [modifyExistingLoop]
  | s :: ss, ts, g => by
    obtain ⟨s1, g1, hs1⟩ := hk s g
    obtain ⟨h1, h2⟩ := modifyExistingLoop_lengths handler dT hk ss ts.tail g1
    simp only [modifyExistingLoop, hs1, List.length_append, List.length_cons, h1, h2,
      List.length_take, List.length_tail, and_true]
    cases ts with
    | nil => simp
    | cons t ts => simp only [List.length_cons, List.length_nil]; omega

/-- When a kept particle always has the same value of `π` as before, the
values of `π` after the loop are a subsequence of the values before. -/
theorem modifyExistingLoop_sublist {β : Type} (π : ParticleState → β)
    (handler : CallbackHandler) (dT : ℚ)
    (hp : ∀ s g s1 g1, modifyParticle handler dT s g = (some s1, g1) → π s1 = π s) :
    ∀ (ss : List ParticleState) (ts : List ParticleType) (g : RandomGenerator),
      ((modifyExistingLoop handler dT ts ss g).2.1.map π).Sublist (ss.map π)
  | [], ts, g => by simp [modifyExistingLoop]
  | s :: ss, ts, g => by
    have ih := modifyExistingLoop_sublist π handler dT hp ss ts.tail
    cases hb : modifyParticle handler dT s g with
    | mk o g1 =>
      cases o with
      | none =>
        simp only [modifyExistingLoop, hb, List.map_cons]
        exact (ih g1).cons _
      | some s1 =>
        simp only [modifyExistingLoop, hb, List.map_cons, hp s g s1 g1 hb]
        exact (ih g1).cons₂ _

/-- The loop body never changes a position. -/
theorem modifyParticle_pos (handler : CallbackHandler) (dT : ℚ) (s : ParticleState)
    (g : RandomGenerator) (s1 : ParticleState) (g1 : RandomGenerator)
    (h : modifyParticle handler dT s g = (some s1, g1)) : s1.pos = s.pos := by
  unfold modifyParticle at h
  by_cases hin : (s.pos - handler.pos).magnitudeLt handler.radius = true
  · rw [if_pos hin] at h
    cases hact : handler.action <;> rw [hact] at h <;> simp only [removalTrial, pullAndSlow] at h
    · cases h; rfl
    · split_ifs at h <;> cases h <;> rfl
    · split_ifs at h <;> cases h <;> rfl
    · split_ifs at h <;> cases h <;> rfl
  · rw [if_neg hin] at h
    cases h; rfl

/-- Outside the radius the loop body keeps the particle as it is and draws
nothing. -/
theorem modifyParticle_outside (handler : CallbackHandler) (dT : ℚ) (s : ParticleState)
    (g : RandomGenerator) (hout : (s.pos - handler.pos).magnitudeLt handler.radius = false) :
    modifyParticle handler dT s g = (some s, g) := by
  simp [modifyParticle, hout]

end UniverseModifier

/-! ## Heat and push (C14, C15) -/

namespace UniverseModifier

/-- The loop body in heat mode. -/
theorem modifyParticle_heat (handler : CallbackHandler) (dT : ℚ)
    (hact : handler.action = MouseAction.heat) (s : ParticleState) (g : RandomGenerator) :
    modifyParticle handler dT s g
      = (some (if (s.pos - handler.pos).magnitudeLt handler.radius
                then ⟨s.pos, s.v * (1 + (handler.sign : ℚ) * 0.1 * dT)⟩ else s), g) := by
  unfold modifyParticle
  by_cases hin : (s.pos - handler.pos).magnitudeLt handler.radius = true
  · simp only [if_pos hin, hact, heatingSpeed]
  · simp only [if_neg hin]

/-- The loop body in push mode with the left button (sign > 0). -/
theorem modifyParticle_push_pos (handler : CallbackHandler) (dT : ℚ)
    (hact : handler.action = MouseAction.push) (hs : 0 < handler.sign) (s : ParticleState)
    (g : RandomGenerator) :
    modifyParticle handler dT s g
      = (some (if (s.pos - handler.pos).magnitudeLt handler.radius
                then ⟨s.pos, s.v + (s.pos - handler.pos) * (0.5 * dT / handler.radius)⟩
                else s), g) := by
  unfold modifyParticle
  by_cases hin : (s.pos - handler.pos).magnitudeLt handler.radius = true
  · simp only [if_pos hin, hact, pushingSpeed, gt_iff_lt, if_pos hs]
  · simp only [if_neg hin]

/-- The loop body in push mode with the right button (sign < 0). -/
theorem modifyParticle_push_neg (handler : CallbackHandler) (dT : ℚ)
    (hact : handler.action = MouseAction.push) (hs : handler.sign < 0) (s : ParticleState)
    (g : RandomGenerator) :
    modifyParticle handler dT s g
      = (some (if (s.pos - handler.pos).magnitudeLt handler.radius
                then ⟨s.pos, (s.v - (s.pos - handler.pos) * (0.2 * dT / handler.radius))
                              * (1 - 0.1 * dT)⟩
                else s), g) := by
  have hn : ¬ 0 < handler.sign := by omega
  unfold modifyParticle
  by_cases hin : (s.pos - handler.pos).magnitudeLt handler.radius = true
  · simp only [if_pos hin, hact, pullAndSlow, pullingSpeed, heatingSpeed, gt_iff_lt, if_neg hn,
      if_pos hs]
  · simp only [if_neg hin]

end UniverseModifier

/-- C14: in heat mode, for every sign (in particular -1 and +1), modifyExisting
replaces the velocity v of every particle strictly within radius of the pointer
by v * (1 + sign * 0.1 * dt) and leaves every other particle as it is; the
species sequence and the particle count are unchanged; for radius > 0 the
in-radius test is the squared-distance test against radius^2. -/
theorem C14_heat (u : Universe) (handler : CallbackHandler) (dT : ℚ) (g : RandomGenerator)
    (hact : handler.action = MouseAction.heat) :
    (UniverseModifier.modifyExisting u handler dT g).1.state.state
      = u.state.state.map (fun s =>
          if (s.pos - handler.pos).magnitudeLt handler.radius
          then ⟨s.pos, s.v * (1 + (handler.sign : ℚ) * 0.1 * dT)⟩ else s) ∧
    (UniverseModifier.modifyExisting u handler dT g).1.diff = u.diff ∧
    (UniverseModifier.modifyExisting u handler dT g).1.state.state.length
      = u.state.state.length ∧
    (0 < handler.radius → ∀ p : Vector2D,
      ((p - handler.pos).magnitudeLt handler.radius = true
        ↔ (p - handler.pos).magnitude2 < handler.radius ^ 2)) := by
  have hm := UniverseModifier.modifyExisting_map u handler dT _
    (UniverseModifier.modifyParticle_heat handler dT hact) g
  refine ⟨by rw [hm], by rw [hm], by rw [hm]; simp, ?_⟩
  intro hr p
  simp [Vector2D.magnitudeLt, hr, pow_two]

/-- Witness for C14: heating (sign +1, dt 1, radius 10 around the origin) a
particle at (1, 0) and a particle at (50, 50). -/
theorem C14_heat_witness :
    (UniverseModifier.modifyExisting
        ⟨⟨100, 100, 1, 0, [⟨"a", 1, 1, 1, 0, 5⟩, ⟨"b", 2, 1, 1, 0, 5⟩]⟩,
         ⟨[⟨⟨1, 0⟩, ⟨1, 0⟩⟩, ⟨⟨50, 50⟩, ⟨1, 1⟩⟩]⟩⟩
        ⟨MouseAction.heat, ⟨0, 0⟩, true, false, 1, 10⟩ 1 ⟨fun _ => 0, 0⟩).1.state.state
      = [⟨⟨1, 0⟩, ⟨11 / 10, 0⟩⟩, ⟨⟨50, 50⟩, ⟨1, 1⟩⟩] := by
  rw [(C14_heat ⟨⟨100, 100, 1, 0, [⟨"a", 1, 1, 1, 0, 5⟩, ⟨"b", 2, 1, 1, 0, 5⟩]⟩,
         ⟨[⟨⟨1, 0⟩, ⟨1, 0⟩⟩, ⟨⟨50, 50⟩, ⟨1, 1⟩⟩]⟩⟩
        ⟨MouseAction.heat, ⟨0, 0⟩, true, false, 1, 10⟩ 1 ⟨fun _ => 0, 0⟩ rfl).1]
  simp only [List.map_cons, List.map_nil, Vector2D.magnitudeLt, Vector2D.magnitude2,
    Vector2D.sub_x, Vector2D.sub_y]
  norm_num
  ext <;> norm_num

/-- C15: in push mode modifyExisting leaves the species sequence and the
particle count unchanged, and for every particle strictly within radius of the
pointer: with sign > 0 the new velocity is v + (pos - center) * (0.5 * dt /
radius); with sign < 0 it is (v - (pos - center) * (0.2 * dt / radius)) *
(1 - 0.1 * dt); every other particle is left as it is. -/
theorem C15_push (u : Universe) (handler : CallbackHandler) (dT : ℚ) (g : RandomGenerator)
    (hact : handler.action = MouseAction.push) :
    (0 < handler.sign →
      (UniverseModifier.modifyExisting u handler dT g).1.state.state
        = u.state.state.map (fun s =>
            if (s.pos - handler.pos).magnitudeLt handler.radius
            then ⟨s.pos, s.v + (s.pos - handler.pos) * (0.5 * dT / handler.radius)⟩
            else s) ∧
      (UniverseModifier.modifyExisting u handler dT g).1.diff = u.diff ∧
      (UniverseModifier.modifyExisting u handler dT g).1.state.state.length
        = u.state.state.length) ∧
    (handler.sign < 0 →
      (UniverseModifier.modifyExisting u handler dT g).1.state.state
        = u.state.state.map (fun s =>
            if (s.pos - handler.pos).magnitudeLt handler.radius
            then ⟨s.pos, (s.v - (s.pos - handler.pos) * (0.2 * dT / handler.radius))
                          * (1 - 0.1 * dT)⟩
            else s) ∧
      (UniverseModifier.modifyExisting u handler dT g).1.diff = u.diff ∧
      (UniverseModifier.modifyExisting u handler dT g).1.state.state.length
        = u.state.state.length) := by
  refine ⟨?_, ?_⟩
  · intro hs
    have hm := UniverseModifier.modifyExisting_map u handler dT _
      (UniverseModifier.modifyParticle_push_pos handler dT hact hs) g
    exact ⟨by rw [hm], by rw [hm], by rw [hm]; simp⟩
  · intro hs
    have hm := UniverseModifier.modifyExisting_map u handler dT _
      (UniverseModifier.modifyParticle_push_neg handler dT hact hs) g
    exact ⟨by rw [hm], by rw [hm], by rw [hm]; simp⟩

/-- Witness for C15: pushing (sign +1, dt 1, radius 10 around the origin) a
particle at (2, 0) with velocity (1, 0) and a particle at (50, 50). -/
theorem C15_push_witness :
    (UniverseModifier.modifyExisting
        ⟨⟨100, 100, 1, 0, [⟨"a", 1, 1, 1, 0, 5⟩, ⟨"b", 2, 1, 1, 0, 5⟩]⟩,
         ⟨[⟨⟨2, 0⟩, ⟨1, 0⟩⟩, ⟨⟨50, 50⟩, ⟨1, 1⟩⟩]⟩⟩
        ⟨MouseAction.push, ⟨0, 0⟩, true, false, 1, 10⟩ 1 ⟨fun _ => 0, 0⟩).1.state.state
      = [⟨⟨2, 0⟩, ⟨11 / 10, 0⟩⟩, ⟨⟨50, 50⟩, ⟨1, 1⟩⟩] := by
  rw [((C15_push ⟨⟨100, 100, 1, 0, [⟨"a", 1, 1, 1, 0, 5⟩, ⟨"b", 2, 1, 1, 0, 5⟩]⟩,
         ⟨[⟨⟨2, 0⟩, ⟨1, 0⟩⟩, ⟨⟨50, 50⟩, ⟨1, 1⟩⟩]⟩⟩
        ⟨MouseAction.push, ⟨0, 0⟩, true, false, 1, 10⟩ 1 ⟨fun _ => 0, 0⟩ rfl).1
        (by decide)).1]
  simp only [List.map_cons, List.map_nil, Vector2D.magnitudeLt, Vector2D.magnitude2,
    Vector2D.sub_x, Vector2D.sub_y]
  norm_num
  ext <;> norm_num

/-! ## Create mode and existing particles (C12, C13) -/

namespace UniverseModifier

/-- The loop body in create mode with the left button (sign > 0): the
particle is pulled and slowed, never erased, and nothing is drawn. -/
theorem modifyParticle_create_pos (handler : CallbackHandler) (dT : ℚ)
    (hact : handler.action = MouseAction.create) (hs : 0 < handler.sign) (s : ParticleState)
    (g : RandomGenerator) :
    modifyParticle handler dT s g
      = (some (if (s.pos - handler.pos).magnitudeLt handler.radius
                then ⟨s.pos, (s.v - (s.pos - handler.pos) * (0.2 * dT / handler.radius))
                              * (1 - 0.1 * dT)⟩
                else s), g) := by
  have hn : ¬ handler.sign = -1 := by omega
  unfold modifyParticle
  by_cases hin : (s.pos - handler.pos).magnitudeLt handler.radius = true
  · simp only [if_pos hin, hact, pullAndSlow, pullingSpeed, heatingSpeed, gt_iff_lt, if_pos hs,
      removalTrial, if_neg hn]
  · simp only [if_neg hin]

/-- In create or spray mode without the left button (sign ≤ 0), a particle
that the loop body keeps is unchanged. -/
theorem modifyParticle_kept_unchanged (handler : CallbackHandler) (dT : ℚ)
    (hact : handler.action = MouseAction.create ∨ handler.action = MouseAction.spray)
    (hs : ¬ 0 < handler.sign) (s : ParticleState) (g : RandomGenerator) (s1 : ParticleState)
    (g1 : RandomGenerator) (h : modifyParticle handler dT s g = (some s1, g1)) : s1 = s := by
  unfold modifyParticle at h
  by_cases hin : (s.pos - handler.pos).magnitudeLt handler.radius = true
  · rw [if_pos hin] at h
    rcases hact with hact | hact
    · simp only [hact, gt_iff_lt, if_neg hs, removalTrial] at h
      split_ifs at h <;> cases h <;> rfl
    · simp only [hact, removalTrial] at h
      split_ifs at h <;> cases h <;> rfl
  · rw [if_neg hin] at h
    cases h; rfl

end UniverseModifier

/-- C12 as stated fails: in create mode with sign +1, dt 1 and radius 10
around the origin, the existing particle at (1, 0) with velocity (1, 0) leaves
the existing-particle pass with velocity (441/500, 0). -/
theorem C12_create_positive_counterexample :
    (UniverseModifier.modifyExisting
        ⟨⟨100, 100, 1, 0, [⟨"a", 1, 1, 1, 0, 5⟩]⟩, ⟨[⟨⟨1, 0⟩, ⟨1, 0⟩⟩]⟩⟩
        ⟨MouseAction.create, ⟨0, 0⟩, true, false, 1, 10⟩ 1 ⟨fun _ => 0, 0⟩).1.state.state
      = [⟨⟨1, 0⟩, ⟨441 / 500, 0⟩⟩] ∧
    (UniverseModifier.modifyExisting
        ⟨⟨100, 100, 1, 0, [⟨"a", 1, 1, 1, 0, 5⟩]⟩, ⟨[⟨⟨1, 0⟩, ⟨1, 0⟩⟩]⟩⟩
        ⟨MouseAction.create, ⟨0, 0⟩, true, false, 1, 10⟩ 1 ⟨fun _ => 0, 0⟩).1.state.state
      ≠ [⟨⟨1, 0⟩, ⟨1, 0⟩⟩] := by
  have hm := UniverseModifier.modifyExisting_map
    ⟨⟨100, 100, 1, 0, [⟨"a", 1, 1, 1, 0, 5⟩]⟩, ⟨[⟨⟨1, 0⟩, ⟨1, 0⟩⟩]⟩⟩
    ⟨MouseAction.create, ⟨0, 0⟩, true, false, 1, 10⟩ 1 _
    (UniverseModifier.modifyParticle_create_pos
      ⟨MouseAction.create, ⟨0, 0⟩, true, false, 1, 10⟩ 1 rfl (by decide)) ⟨fun _ => 0, 0⟩
  have e : (UniverseModifier.modifyExisting
        ⟨⟨100, 100, 1, 0, [⟨"a", 1, 1, 1, 0, 5⟩]⟩, ⟨[⟨⟨1, 0⟩, ⟨1, 0⟩⟩]⟩⟩
        ⟨MouseAction.create, ⟨0, 0⟩, true, false, 1, 10⟩ 1 ⟨fun _ => 0, 0⟩).1.state.state
      = [⟨⟨1, 0⟩, ⟨441 / 500, 0⟩⟩] := by
    rw [hm]
    simp only [List.map_cons, List.map_nil, Vector2D.magnitudeLt, Vector2D.magnitude2,
      Vector2D.sub_x, Vector2D.sub_y]
    norm_num
    ext <;> norm_num
  refine ⟨e, ?_⟩
  rw [e]
  intro h
  have h2 := congrArg (fun l => (l.map (fun p => p.v.x))) h
  norm_num at h2

/-- C12, amended: in create mode with sign > 0 the existing-particle pass
keeps the species sequence, the particle count and every position, draws
nothing, and leaves every particle at distance ≥ radius as it is; a particle
strictly within radius is pulled and slowed: its new velocity is
(v - (pos - center) * (0.2 * dt / radius)) * (1 - 0.1 * dt). -/
theorem C12_create_positive (u : Universe) (handler : CallbackHandler) (dT : ℚ)
    (g : RandomGenerator) (hact : handler.action = MouseAction.create)
    (hs : 0 < handler.sign) :
    (UniverseModifier.modifyExisting u handler dT g).1.state.state
      = u.state.state.map (fun s =>
          if (s.pos - handler.pos).magnitudeLt handler.radius
          then ⟨s.pos, (s.v - (s.pos - handler.pos) * (0.2 * dT / handler.radius))
                        * (1 - 0.1 * dT)⟩
          else s) ∧
    (UniverseModifier.modifyExisting u handler dT g).1.diff = u.diff ∧
    (UniverseModifier.modifyExisting u handler dT g).1.state.state.length
      = u.state.state.length ∧
    (UniverseModifier.modifyExisting u handler dT g).1.state.state.map (fun s => s.pos)
      = u.state.state.map (fun s => s.pos) ∧
    (UniverseModifier.modifyExisting u handler dT g).2 = g := by
  have hm := UniverseModifier.modifyExisting_map u handler dT _
    (UniverseModifier.modifyParticle_create_pos handler dT hact hs) g
  refine ⟨by rw [hm], by rw [hm], by rw [hm]; simp, ?_, by rw [hm]⟩
  rw [hm]
  simp only [List.map_map]
  apply List.map_congr_left
  intro s _
  simp only [Function.comp]
  split_ifs <;> rfl

/-- Witness for C12: create mode, sign +1, dt 1, radius 10 around the origin,
a particle at (1, 0) and a particle at (50, 50). -/
theorem C12_create_positive_witness :
    (UniverseModifier.modifyExisting
        ⟨⟨100, 100, 1, 0, [⟨"a", 1, 1, 1, 0, 5⟩, ⟨"b", 2, 1, 1, 0, 5⟩]⟩,
         ⟨[⟨⟨1, 0⟩, ⟨1, 0⟩⟩, ⟨⟨50, 50⟩, ⟨1, 1⟩⟩]⟩⟩
        ⟨MouseAction.create, ⟨0, 0⟩, true, false, 1, 10⟩ 1 ⟨fun _ => 0, 0⟩).1.state.state
      = [⟨⟨1, 0⟩, ⟨441 / 500, 0⟩⟩, ⟨⟨50, 50⟩, ⟨1, 1⟩⟩] := by
  rw [(C12_create_positive ⟨⟨100, 100, 1, 0, [⟨"a", 1, 1, 1, 0, 5⟩, ⟨"b", 2, 1, 1, 0, 5⟩]⟩,
         ⟨[⟨⟨1, 0⟩, ⟨1, 0⟩⟩, ⟨⟨50, 50⟩, ⟨1, 1⟩⟩]⟩⟩
        ⟨MouseAction.create, ⟨0, 0⟩, true, false, 1, 10⟩ 1 ⟨fun _ => 0, 0⟩ rfl
        (by decide)).1]
  simp only [List.map_cons, List.map_nil, Vector2D.magnitudeLt, Vector2D.magnitude2,
    Vector2D.sub_x, Vector2D.sub_y]
  norm_num
  ext <;> norm_num

/-- C13 as stated fails: in create mode with sign -1, dt 1 and radius 10
around the origin, when the removal trial fails (raw outcome 3/4, not below
0.5), the particle at (1, 0) with velocity (1, 0) is within radius, is kept,
and keeps the velocity (1, 0), which is not the pull+damp value. -/
theorem C13_create_negative_counterexample :
    (UniverseModifier.modifyExisting
        ⟨⟨100, 100, 1, 0, [⟨"a", 1, 1, 1, 0, 5⟩]⟩, ⟨[⟨⟨1, 0⟩, ⟨1, 0⟩⟩]⟩⟩
        ⟨MouseAction.create, ⟨0, 0⟩, false, true, -1, 10⟩ 1 ⟨fun _ => 3 / 4, 0⟩).1.state.state
      = [⟨⟨1, 0⟩, ⟨1, 0⟩⟩] ∧
    ((⟨1, 0⟩ : Vector2D) - ⟨0, 0⟩).magnitudeLt 10 = true ∧
    (⟨1, 0⟩ : Vector2D)
      ≠ ((⟨1, 0⟩ : Vector2D) - ((⟨1, 0⟩ : Vector2D) - ⟨0, 0⟩) * ((0.2 : ℚ) * 1 / 10))
          * ((1 : ℚ) - 0.1 * 1) := by
  refine ⟨?_, ?_, ?_⟩
  · simp only [UniverseModifier.modifyExisting, UniverseModifier.modifyExistingLoop,
      UniverseModifier.modifyParticle, UniverseModifier.removalTrial, bernoulli,
      RandomGenerator.draw, UniverseModifier.removeSpeed, Vector2D.magnitudeLt,
      Vector2D.magnitude2, Vector2D.sub_x, Vector2D.sub_y]
    norm_num
  · simp only [Vector2D.magnitudeLt, Vector2D.magnitude2, Vector2D.sub_x, Vector2D.sub_y]
    norm_num
  · intro h
    have h2 := congrArg Vector2D.x h
    simp only [Vector2D.mul_x, Vector2D.sub_x] at h2
    norm_num at h2

/-- C13, amended: in create mode with sign < 0 the existing-particle pass
changes no velocity: every particle that is not removed, within radius or not,
leaves the loop body with the state it had, so the states after the pass are a
subsequence of the states before (the pull+damp of create mode is applied when
sign > 0). -/
theorem C13_create_negative (handler : CallbackHandler) (dT : ℚ)
    (hact : handler.action = MouseAction.create) (hs : handler.sign < 0) :
    (∀ (s : ParticleState) (g : RandomGenerator) (s1 : ParticleState) (g1 : RandomGenerator),
      UniverseModifier.modifyParticle handler dT s g = (some s1, g1) → s1 = s) ∧
    (∀ (u : Universe) (g : RandomGenerator),
      (UniverseModifier.modifyExisting u handler dT g).1.state.state.Sublist u.state.state) := by
  have hn : ¬ 0 < handler.sign := by omega
  have hb := UniverseModifier.modifyParticle_kept_unchanged handler dT (Or.inl hact) hn
  refine ⟨hb, ?_⟩
  intro u g
  have hsub := UniverseModifier.modifyExistingLoop_sublist (fun s => s) handler dT hb
    u.state.state u.diff.particles g
  simpa [UniverseModifier.modifyExisting] using hsub

/-- Witness for C13: create mode, sign -1, dt 1, radius 10 around the origin,
two particles within radius, the first kept and the second removed. -/
theorem C13_create_negative_witness :
    (UniverseModifier.modifyExisting
        ⟨⟨100, 100, 1, 0, [⟨"a", 1, 1, 1, 0, 5⟩, ⟨"b", 2, 1, 1, 0, 5⟩]⟩,
         ⟨[⟨⟨1, 0⟩, ⟨1, 0⟩⟩, ⟨⟨2, 2⟩, ⟨1, 1⟩⟩]⟩⟩
        ⟨MouseAction.create, ⟨0, 0⟩, false, true, -1, 10⟩ 1
        ⟨fun n => if n = 0 then 3 / 4 else 1 / 4, 0⟩).1.state.state.Sublist
      [⟨⟨1, 0⟩, ⟨1, 0⟩⟩, ⟨⟨2, 2⟩, ⟨1, 1⟩⟩] :=
  (C13_create_negative ⟨MouseAction.create, ⟨0, 0⟩, false, true, -1, 10⟩ 1 rfl
    (by decide)).2 _ _

/-! ## Spray mode (C11) -/

namespace UniverseModifier

/-- The loop body in spray mode unless `sign == -1`: nothing happens. -/
theorem modifyParticle_spray_noop (handler : CallbackHandler) (dT : ℚ)
    (hact : handler.action = MouseAction.spray) (hs : handler.sign ≠ -1) (s : ParticleState)
    (g : RandomGenerator) :
    modifyParticle handler dT s g = (some ((fun x => x) s), g) := by
  unfold modifyParticle
  by_cases hin : (s.pos - handler.pos).magnitudeLt handler.radius = true
  · simp only [if_pos hin, hact, removalTrial, if_neg hs]
  · simp only [if_neg hin]

end UniverseModifier

/-- C11: in spray mode with sign > 0 (radius ≥ 0, and cos, sin on the unit
circle), one modify step succeeds for every drawn angle, leaves every existing
particle as it is and appends exactly one particle: its position is the pointer
position and its velocity has magnitude 0.08 * radius, that is, 0.08 * radius is
non-negative and its square is the squared magnitude. One outcome is drawn. -/
theorem C11_spray (sm : Sampling) (u : Universe) (handler : CallbackHandler) (dT : ℚ)
    (type : ParticleType) (g : RandomGenerator)
    (hact : handler.action = MouseAction.spray) (hs : 0 < handler.sign)
    (hr : 0 ≤ handler.radius) (htrig : ∀ a, sm.cos a ^ 2 + sm.sin a ^ 2 = 1) :
    ∃ v : Vector2D,
      UniverseModifier.modify sm u handler dT type g
        = some (⟨{ u.diff with particles := u.diff.particles ++ [type] },
                 ⟨u.state.state ++ [⟨handler.pos, v⟩]⟩⟩, (g.draw).2) ∧
      0 ≤ 0.08 * handler.radius ∧
      v.magnitude2 = (0.08 * handler.radius) ^ 2 := by
  have hne : handler.sign ≠ -1 := by omega
  have hn0 : ¬ handler.sign = 0 := by omega
  have hnle : ¬ handler.sign ≤ 0 := by omega
  have hm := UniverseModifier.modifyExisting_map u handler dT _
    (UniverseModifier.modifyParticle_spray_noop handler dT hact hne) g
  refine ⟨⟨UniverseModifier.sprayParticleSpeedCoef * handler.radius
            * sm.cos (sm.phiDistr (g.draw).1),
          UniverseModifier.sprayParticleSpeedCoef * handler.radius
            * sm.sin (sm.phiDistr (g.draw).1)⟩, ?_, ?_, ?_⟩
  · simp only [UniverseModifier.modify, if_neg hn0, hm, UniverseModifier.addNew, if_neg hnle,
      hact, List.map_id', Universe.addParticle]
  · exact mul_nonneg (by norm_num) hr
  · have ht := htrig (sm.phiDistr (g.draw).1)
    simp only [Vector2D.magnitude2, UniverseModifier.sprayParticleSpeedCoef]
    linear_combination ((0.08 : ℚ) * handler.radius) ^ 2 * ht

/-- Witness for C11: spray mode, sign +1, radius 100, pointer at (5, 5), with
the direction (3/5, 4/5): the new particle has velocity (24/5, 32/5). -/
theorem C11_spray_witness :
    ∃ v : Vector2D,
      UniverseModifier.modify ⟨id, fun _ q => q, fun _ => 3 / 5, fun _ => 4 / 5⟩
          ⟨⟨100, 100, 1, 0, [⟨"a", 1, 1, 1, 0, 5⟩]⟩, ⟨[⟨⟨1, 0⟩, ⟨1, 0⟩⟩]⟩⟩
          ⟨MouseAction.spray, ⟨5, 5⟩, true, false, 1, 100⟩ 1 ⟨"b", 2, 1, 1, 0, 5⟩
          ⟨fun _ => 1 / 2, 0⟩
        = some (⟨⟨100, 100, 1, 0, [⟨"a", 1, 1, 1, 0, 5⟩] ++ [⟨"b", 2, 1, 1, 0, 5⟩]⟩,
                 ⟨[⟨⟨1, 0⟩, ⟨1, 0⟩⟩] ++ [⟨⟨5, 5⟩, v⟩]⟩⟩,
                (RandomGenerator.draw ⟨fun _ => 1 / 2, 0⟩).2) ∧
      (0 : ℚ) ≤ 0.08 * 100 ∧
      v.magnitude2 = (0.08 * 100) ^ 2 :=
  C11_spray ⟨id, fun _ q => q, fun _ => 3 / 5, fun _ => 4 / 5⟩
    ⟨⟨100, 100, 1, 0, [⟨"a", 1, 1, 1, 0, 5⟩]⟩, ⟨[⟨⟨1, 0⟩, ⟨1, 0⟩⟩]⟩⟩
    ⟨MouseAction.spray, ⟨5, 5⟩, true, false, 1, 100⟩ 1 ⟨"b", 2, 1, 1, 0, 5⟩
    ⟨fun _ => 1 / 2, 0⟩ rfl (by decide) (by norm_num) (by intro a; norm_num)

/-! ## Stochastic removal (C18) -/

namespace UniverseModifier

/-- The loop body within the radius in spray or create mode with `sign == -1`:
one trial, the particle is erased on success and kept unchanged otherwise. -/
theorem modifyParticle_trial (handler : CallbackHandler) (dT : ℚ)
    (hact : handler.action = MouseAction.spray ∨ handler.action = MouseAction.create)
    (hs : handler.sign = -1) (s : ParticleState) (g : RandomGenerator)
    (hin : (s.pos - handler.pos).magnitudeLt handler.radius = true) :
    modifyParticle handler dT s g
      = (if g.outcomes g.used < removeSpeed * dT then none else some s, (g.draw).2) := by
  have hn : ¬ handler.sign > 0 := by omega
  unfold modifyParticle
  rw [if_pos hin]
  rcases hact with hact | hact
  · simp only [hact, removalTrial, if_pos hs, bernoulli, RandomGenerator.draw,
      decide_eq_true_eq]
    split_ifs <;> rfl
  · simp only [hact, if_neg hn, removalTrial, if_pos hs, bernoulli, RandomGenerator.draw,
      decide_eq_true_eq]
    split_ifs <;> rfl

/-- When every trial succeeds, the loop erases exactly the in-radius particles
from both sequences. -/
theorem modifyExistingLoop_all_succeed (handler : CallbackHandler) (dT : ℚ)
    (hact : handler.action = MouseAction.spray ∨ handler.action = MouseAction.create)
    (hs : handler.sign = -1) :
    ∀ (ss : List ParticleState) (ts : List ParticleType) (g : RandomGenerator),
      ts.length = ss.length → (∀ n, g.outcomes n < removeSpeed * dT) →
      (modifyExistingLoop handler dT ts ss g).1
        = ((ts.zip ss).filter
            (fun p => !(p.2.pos - handler.pos).magnitudeLt handler.radius)).map Prod.fst ∧
      (modifyExistingLoop handler dT ts ss g).2.1
        = ss.filter (fun s => !(s.pos - handler.pos).magnitudeLt handler.radius)
  | [], ts, g => by
    intro hl _
    have : ts = [] := List.length_eq_zero.mp hl
    subst this
    simp [modifyExistingLoop]
  | s :: ss, [], g => by
    intro hl
    simp at hl
  | s :: ss, t :: ts, g => by
    intro hl hall
    have hl1 : ts.length = ss.length := by simpa using hl
    by_cases hin : (s.pos - handler.pos).magnitudeLt handler.radius = true
    · have hb := modifyParticle_trial handler dT hact hs s g hin
      rw [if_pos (hall g.used)] at hb
      obtain ⟨h1, h2⟩ := modifyExistingLoop_all_succeed handler dT hact hs ss ts (g.draw).2
        hl1 (fun n => hall n)
      simp only [modifyExistingLoop, hb, List.tail_cons, h1, h2, List.zip_cons_cons,
        List.filter_cons, hin, Bool.not_true, Bool.false_eq_true, if_false, and_self]
    · have hout : (s.pos - handler.pos).magnitudeLt handler.radius = false := by
        simpa using hin
      have hb := modifyParticle_outside handler dT s g hout
      obtain ⟨h1, h2⟩ := modifyExistingLoop_all_succeed handler dT hact hs ss ts g hl1 hall
      simp only [modifyExistingLoop, hb, List.tail_cons, h1, h2, List.zip_cons_cons,
        List.filter_cons, hout, Bool.not_false, if_true, List.map_cons, List.take_succ_cons,
        List.take_zero, List.singleton_append, and_self]

/-- When every trial fails, the loop removes nothing and changes nothing. -/
theorem modifyExistingLoop_all_fail (handler : CallbackHandler) (dT : ℚ)
    (hact : handler.action = MouseAction.spray ∨ handler.action = MouseAction.create)
    (hs : handler.sign = -1) :
    ∀ (ss : List ParticleState) (ts : List ParticleType) (g : RandomGenerator),
      (∀ n, ¬ g.outcomes n < removeSpeed * dT) →
      (modifyExistingLoop handler dT ts ss g).1 = ts ∧
      (modifyExistingLoop handler dT ts ss g).2.1 = ss
  | [], ts, g => by
    intro _
    simp [modifyExistingLoop]
  | s :: ss, ts, g => by
    intro hall
    by_cases hin : (s.pos - handler.pos).magnitudeLt handler.radius = true
    · have hb := modifyParticle_trial handler dT hact hs s g hin
      rw [if_neg (hall g.used)] at hb
      obtain ⟨h1, h2⟩ := modifyExistingLoop_all_fail handler dT hact hs ss ts.tail (g.draw).2
        (fun n => hall n)
      simp only [modifyExistingLoop, hb, h1, h2, take_one_append_tail, and_self]
    · have hout : (s.pos - handler.pos).magnitudeLt handler.radius = false := by
        simpa using hin
      have hb := modifyParticle_outside handler dT s g hout
      obtain ⟨h1, h2⟩ := modifyExistingLoop_all_fail handler dT hact hs ss ts.tail g hall
      simp only [modifyExistingLoop, hb, h1, h2, take_one_append_tail, and_self]

end UniverseModifier

/-- C18: in spray or create mode with sign == -1, on a Universe whose two
sequences have equal length: when every Bernoulli trial succeeds (every raw
outcome is below removeSpeed * dt, which is 1 for dt = 2), modifyExisting
erases exactly the particles strictly within radius of the pointer, consecutive
ones included, and the out-of-radius particles remain, unchanged and in their
order, with their species; when every trial fails, no particle is removed. -/
theorem C18_removal (u : Universe) (handler : CallbackHandler) (dT : ℚ) (g : RandomGenerator)
    (hact : handler.action = MouseAction.spray ∨ handler.action = MouseAction.create)
    (hs : handler.sign = -1) (hlen : u.diff.particles.length = u.state.state.length) :
    ((∀ n, g.outcomes n < UniverseModifier.removeSpeed * dT) →
      (UniverseModifier.modifyExisting u handler dT g).1.state.state
        = u.state.state.filter
            (fun s => !(s.pos - handler.pos).magnitudeLt handler.radius) ∧
      (UniverseModifier.modifyExisting u handler dT g).1.diff.particles
        = ((u.diff.particles.zip u.state.state).filter
            (fun p => !(p.2.pos - handler.pos).magnitudeLt handler.radius)).map Prod.fst) ∧
    ((∀ n, ¬ g.outcomes n < UniverseModifier.removeSpeed * dT) →
      (UniverseModifier.modifyExisting u handler dT g).1.state.state = u.state.state ∧
      (UniverseModifier.modifyExisting u handler dT g).1.diff.particles = u.diff.particles) ∧
    UniverseModifier.removeSpeed * 2 = 1 := by
  refine ⟨?_, ?_, by norm_num [UniverseModifier.removeSpeed]⟩
  · intro hall
    obtain ⟨h1, h2⟩ := UniverseModifier.modifyExistingLoop_all_succeed handler dT hact hs
      u.state.state u.diff.particles g hlen hall
    exact ⟨h2, h1⟩
  · intro hall
    obtain ⟨h1, h2⟩ := UniverseModifier.modifyExistingLoop_all_fail handler dT hact hs
      u.state.state u.diff.particles g hall
    exact ⟨h2, h1⟩

/-- Witness for C18: spray mode, sign -1, dt 2, radius 10 around the origin,
raw outcomes 1/2; particles at (1, 0), (2, 2), (50, 50), (3, 0): the three
within radius, two of them consecutive, are erased. -/
theorem C18_removal_witness :
    (UniverseModifier.modifyExisting
        ⟨⟨100, 100, 1, 0, [⟨"a", 1, 1, 1, 0, 5⟩, ⟨"b", 2, 1, 1, 0, 5⟩, ⟨"c", 3, 1, 1, 0, 5⟩,
          ⟨"d", 4, 1, 1, 0, 5⟩]⟩,
         ⟨[⟨⟨1, 0⟩, ⟨1, 0⟩⟩, ⟨⟨2, 2⟩, ⟨1, 1⟩⟩, ⟨⟨50, 50⟩, ⟨0, 1⟩⟩, ⟨⟨3, 0⟩, ⟨0, 0⟩⟩]⟩⟩
        ⟨MouseAction.spray, ⟨0, 0⟩, false, true, -1, 10⟩ 2 ⟨fun _ => 1 / 2, 0⟩).1.state.state
      = [⟨⟨50, 50⟩, ⟨0, 1⟩⟩] := by
  rw [((C18_removal
        ⟨⟨100, 100, 1, 0, [⟨"a", 1, 1, 1, 0, 5⟩, ⟨"b", 2, 1, 1, 0, 5⟩, ⟨"c", 3, 1, 1, 0, 5⟩,
          ⟨"d", 4, 1, 1, 0, 5⟩]⟩,
         ⟨[⟨⟨1, 0⟩, ⟨1, 0⟩⟩, ⟨⟨2, 2⟩, ⟨1, 1⟩⟩, ⟨⟨50, 50⟩, ⟨0, 1⟩⟩, ⟨⟨3, 0⟩, ⟨0, 0⟩⟩]⟩⟩
        ⟨MouseAction.spray, ⟨0, 0⟩, false, true, -1, 10⟩ 2 ⟨fun _ => 1 / 2, 0⟩
        (Or.inl rfl) rfl rfl).1
        (by intro n; norm_num [UniverseModifier.removeSpeed])).1]
  simp only [List.filter_cons, List.filter_nil, Vector2D.magnitudeLt, Vector2D.magnitude2,
    Vector2D.sub_x, Vector2D.sub_y]
  norm_num

/-! ## Frame of the existing-particle pass (C20) -/

namespace UniverseModifier

/-- In heat and push modes, and in every mode with sign > 0, the loop body
keeps the particle. -/
theorem modifyParticle_keeps_of (handler : CallbackHandler) (dT : ℚ)
    (h : handler.action = MouseAction.heat ∨ handler.action = MouseAction.push ∨
      0 < handler.sign) (s : ParticleState) (g : RandomGenerator) :
    ∃ s1 g1, modifyParticle handler dT s g = (some s1, g1) := by
  unfold modifyParticle
  by_cases hin : (s.pos - handler.pos).magnitudeLt handler.radius = true
  · rw [if_pos hin]
    cases hact : handler.action with
    | heat => exact ⟨_, _, rfl⟩
    | push =>
      simp only
      split_ifs
      · exact ⟨_, _, rfl⟩
      · exact ⟨_, _, rfl⟩
      · exact ⟨_, _, rfl⟩
    | create =>
      have hne : handler.sign ≠ -1 := by
        rcases h with h | h | h
        · rw [hact] at h; cases h
        · rw [hact] at h; cases h
        · omega
      simp only [removalTrial, if_neg hne]
      exact ⟨_, _, rfl⟩
    | spray =>
      have hne : handler.sign ≠ -1 := by
        rcases h with h | h | h
        · rw [hact] at h; cases h
        · rw [hact] at h; cases h
        · omega
      simp only [removalTrial, if_neg hne]
      exact ⟨_, _, rfl⟩
  · rw [if_neg hin]
    exact ⟨_, _, rfl⟩

/-- The particles outside the radius after the loop are the particles outside
the radius before it. -/
theorem modifyExistingLoop_outside (handler : CallbackHandler) (dT : ℚ) :
    ∀ (ss : List ParticleState) (ts : List ParticleType) (g : RandomGenerator),
      (modifyExistingLoop handler dT ts ss g).2.1.filter
          (fun s => !(s.pos - handler.pos).magnitudeLt handler.radius)
        = ss.filter (fun s => !(s.pos - handler.pos).magnitudeLt handler.radius)
  | [], ts, g => by simp [modifyExistingLoop]
  | s :: ss, ts, g => by
    have ih := modifyExistingLoop_outside handler dT ss ts.tail
    by_cases hin : (s.pos - handler.pos).magnitudeLt handler.radius = true
    · cases hb : modifyParticle handler dT s g with
      | mk o g1 =>
        cases o with
        | none =>
          simp only [modifyExistingLoop, hb, List.filter_cons, hin, Bool.not_true,
            Bool.false_eq_true, if_false, ih g1]
        | some s1 =>
          have hpos := modifyParticle_pos handler dT s g s1 g1 hb
          simp only [modifyExistingLoop, hb, List.filter_cons, hpos, hin, Bool.not_true,
            Bool.false_eq_true, if_false, ih g1]
    · have hout : (s.pos - handler.pos).magnitudeLt handler.radius = false := by
        simpa using hin
      have hb := modifyParticle_outside handler dT s g hout
      simp only [modifyExistingLoop, hb, List.filter_cons, hout, Bool.not_false, if_true, ih g]

end UniverseModifier

/-- C20: for every action mode, sign, dt and sequence of random outcomes,
modifyExisting changes no position (the positions afterwards are a subsequence
of the positions before), and neither changes nor removes a particle whose
distance to the pointer is at least radius (the out-of-radius particles
afterwards are the out-of-radius particles before, in order); in heat and push
modes, and in every mode when sign > 0, both sequences keep their length. -/
theorem C20_frame (u : Universe) (handler : CallbackHandler) (dT : ℚ) (g : RandomGenerator) :
    ((UniverseModifier.modifyExisting u handler dT g).1.state.state.map (fun s => s.pos)).Sublist
      (u.state.state.map (fun s => s.pos)) ∧
    (UniverseModifier.modifyExisting u handler dT g).1.state.state.filter
        (fun s => !(s.pos - handler.pos).magnitudeLt handler.radius)
      = u.state.state.filter (fun s => !(s.pos - handler.pos).magnitudeLt handler.radius) ∧
    ((handler.action = MouseAction.heat ∨ handler.action = MouseAction.push ∨
        0 < handler.sign) →
      (UniverseModifier.modifyExisting u handler dT g).1.state.state.length
        = u.state.state.length ∧
      (UniverseModifier.modifyExisting u handler dT g).1.diff.particles.length
        = u.diff.particles.length ∧
      (UniverseModifier.modifyExisting u handler dT g).1.state.state.map (fun s => s.pos)
        = u.state.state.map (fun s => s.pos)) := by
  have hsub := UniverseModifier.modifyExistingLoop_sublist (fun s => s.pos) handler dT
    (UniverseModifier.modifyParticle_pos handler dT) u.state.state u.diff.particles g
  refine ⟨hsub, UniverseModifier.modifyExistingLoop_outside handler dT _ _ g, ?_⟩
  intro h
  obtain ⟨h1, h2⟩ := UniverseModifier.modifyExistingLoop_lengths handler dT
    (UniverseModifier.modifyParticle_keeps_of handler dT h) u.state.state u.diff.particles g
  refine ⟨h2, h1, ?_⟩
  exact hsub.eq_of_length (by simp only [List.length_map]; exact h2)

/-- Witness for C20: create mode with sign +1 on two particles: the count and
the positions are kept. -/
theorem C20_frame_witness :
    (UniverseModifier.modifyExisting
        ⟨⟨100, 100, 1, 0, [⟨"a", 1, 1, 1, 0, 5⟩, ⟨"b", 2, 1, 1, 0, 5⟩]⟩,
         ⟨[⟨⟨1, 0⟩, ⟨1, 0⟩⟩, ⟨⟨50, 50⟩, ⟨1, 1⟩⟩]⟩⟩
        ⟨MouseAction.create, ⟨0, 0⟩, true, false, 1, 10⟩ 1
        ⟨fun _ => 1 / 4, 0⟩).1.state.state.length = 2 ∧
    (UniverseModifier.modifyExisting
        ⟨⟨100, 100, 1, 0, [⟨"a", 1, 1, 1, 0, 5⟩, ⟨"b", 2, 1, 1, 0, 5⟩]⟩,
         ⟨[⟨⟨1, 0⟩, ⟨1, 0⟩⟩, ⟨⟨50, 50⟩, ⟨1, 1⟩⟩]⟩⟩
        ⟨MouseAction.create, ⟨0, 0⟩, true, false, 1, 10⟩ 1
        ⟨fun _ => 1 / 4, 0⟩).1.state.state.map (fun s => s.pos) = [⟨1, 0⟩, ⟨50, 50⟩] :=
  ⟨((C20_frame ⟨⟨100, 100, 1, 0, [⟨"a", 1, 1, 1, 0, 5⟩, ⟨"b", 2, 1, 1, 0, 5⟩]⟩,
         ⟨[⟨⟨1, 0⟩, ⟨1, 0⟩⟩, ⟨⟨50, 50⟩, ⟨1, 1⟩⟩]⟩⟩
        ⟨MouseAction.create, ⟨0, 0⟩, true, false, 1, 10⟩ 1 ⟨fun _ => 1 / 4, 0⟩).2.2
        (Or.inr (Or.inr (by decide)))).1,
   ((C20_frame ⟨⟨100, 100, 1, 0, [⟨"a", 1, 1, 1, 0, 5⟩, ⟨"b", 2, 1, 1, 0, 5⟩]⟩,
         ⟨[⟨⟨1, 0⟩, ⟨1, 0⟩⟩, ⟨⟨50, 50⟩, ⟨1, 1⟩⟩]⟩⟩
        ⟨MouseAction.create, ⟨0, 0⟩, true, false, 1, 10⟩ 1 ⟨fun _ => 1 / 4, 0⟩).2.2
        (Or.inr (Or.inr (by decide)))).2.2⟩

/-! ## Momentum balance (C19) -/

/-- Summed over all particles, the pair forces cancel: what particle `i` gains
from the pairs `(i, j)`, `j < i`, the particles `j` lose. -/
theorem pair_sum_cancel {V : Type} [AddCommGroup V] (F : Nat → Nat → V) :
    ∀ n : Nat, ∑ i in Finset.range n,
      (∑ j in Finset.range i, F i j - ∑ j in Finset.Ico (i + 1) n, F j i) = 0 := by
  intro n
  induction n with
  | zero => simp
  | succ n ih =>
    rw [Finset.sum_range_succ]
    have h1 : ∑ i in Finset.range n,
        (∑ j in Finset.range i, F i j - ∑ j in Finset.Ico (i + 1) (n + 1), F j i)
        = ∑ i in Finset.range n,
            ((∑ j in Finset.range i, F i j - ∑ j in Finset.Ico (i + 1) n, F j i) - F n i) := by
      apply Finset.sum_congr rfl
      intro i hi
      have hle : i + 1 ≤ n := by
        have := Finset.mem_range.mp hi
        omega
      rw [Finset.sum_Ico_succ_top hle]
      abel
    have h2 : Finset.Ico (n + 1) (n + 1) = ∅ := Finset.Ico_eq_empty (by omega)
    rw [h1, Finset.sum_sub_distrib, ih, h2]
    simp

/-- Entry `i` of the accumulated force vector. -/
theorem accumulateForces_getD (d : UniverseDifferentiator) (cf : PairForce)
    (state : UniverseState) (i : Nat) (hi : i < d.particles.length) :
    (d.accumulateForces cf state).getD i 0
      = (∑ j in Finset.range i, d.pairForce cf state i j
          - ∑ j in Finset.Ico (i + 1) d.particles.length, d.pairForce cf state j i)
        + (⟨d.boundForce (-(state.state.getD i default).pos.x)
               - d.boundForce ((state.state.getD i default).pos.x - d.sizeX),
             d.boundForce (-(state.state.getD i default).pos.y)
               - d.boundForce ((state.state.getD i default).pos.y - d.sizeY)⟩
          + ⟨0, d.gravity * (d.particles.getD i default).mass⟩) := by
  have hrep := (forceLoop_rep d cf state d.particles.length le_rfl).2 i hi
  unfold UniverseDifferentiator.accumulateForces
  rw [List.getD_eq_getElem?_getD, hrep, if_pos hi, applyGravity_applyBounds, Option.getD_some]
  abel

theorem vector_sum_x {ι : Type} (s : Finset ι) (f : ι → Vector2D) :
    (∑ i in s, f i).x = ∑ i in s, (f i).x := by
  classical
  induction s using Finset.induction_on with
  | empty => simp
  | insert ha ih => rw [Finset.sum_insert ha, Finset.sum_insert ha, Vector2D.add_x, ih]

theorem vector_sum_y {ι : Type} (s : Finset ι) (f : ι → Vector2D) :
    (∑ i in s, f i).y = ∑ i in s, (f i).y := by
  classical
  induction s using Finset.induction_on with
  | empty => simp
  | insert ha ih => rw [Finset.sum_insert ha, Finset.sum_insert ha, Vector2D.add_y, ih]

/-- The sum of the accumulated forces: wall terms plus total weight. -/
theorem accumulateForces_sum (d : UniverseDifferentiator) (cf : PairForce)
    (state : UniverseState) :
    ∑ i in Finset.range d.particles.length, (d.accumulateForces cf state).getD i 0
      = ∑ i in Finset.range d.particles.length,
          (⟨d.boundForce (-(state.state.getD i default).pos.x)
               - d.boundForce ((state.state.getD i default).pos.x - d.sizeX),
             d.boundForce (-(state.state.getD i default).pos.y)
               - d.boundForce ((state.state.getD i default).pos.y - d.sizeY)⟩ : Vector2D)
        + ⟨0, d.gravity * ∑ i in Finset.range d.particles.length,
            (d.particles.getD i default).mass⟩ := by
  have h1 : ∑ i in Finset.range d.particles.length, (d.accumulateForces cf state).getD i 0
      = ∑ i in Finset.range d.particles.length,
          ((∑ j in Finset.range i, d.pairForce cf state i j
              - ∑ j in Finset.Ico (i + 1) d.particles.length, d.pairForce cf state j i)
            + ((⟨d.boundForce (-(state.state.getD i default).pos.x)
                   - d.boundForce ((state.state.getD i default).pos.x - d.sizeX),
                 d.boundForce (-(state.state.getD i default).pos.y)
                   - d.boundForce ((state.state.getD i default).pos.y - d.sizeY)⟩ : Vector2D)
              + ⟨0, d.gravity * (d.particles.getD i default).mass⟩)) := by
    apply Finset.sum_congr rfl
    intro i hi
    exact accumulateForces_getD d cf state i (Finset.mem_range.mp hi)
  rw [h1, Finset.sum_add_distrib, pair_sum_cancel, zero_add, Finset.sum_add_distrib]
  congr 1
  ext
  · rw [vector_sum_x]; simp
  · rw [vector_sum_y]; simp [Finset.mul_sum]

theorem vector_div_mul_cancel (f : Vector2D) (m : ℚ) (hm : m ≠ 0) : (f / m) * m = f := by
  ext
  · simp only [Vector2D.mul_x, Vector2D.div_x]; exact div_mul_cancel₀ _ hm
  · simp only [Vector2D.mul_y, Vector2D.div_y]; exact div_mul_cancel₀ _ hm

/-- C19: for a state of n particles with positive masses and any pair-force
law, the accumulated forces of derivative sum to the sum of the wall terms plus
(0, gravity * total mass); with gravity = 0 and every particle inside the world
box they sum to zero, derivative returns a state, and the sum over the
particles of mass_i * d(v_i)/dt is the zero vector. -/
theorem C19_momentum (d : UniverseDifferentiator) (cf : PairForce) (state : UniverseState)
    (h : state.state.length = d.particles.length)
    (hm : ∀ t, t ∈ d.particles → 0 < t.mass) :
    (∑ i in Finset.range d.particles.length, (d.accumulateForces cf state).getD i 0
      = ∑ i in Finset.range d.particles.length,
          (⟨d.boundForce (-(state.state.getD i default).pos.x)
               - d.boundForce ((state.state.getD i default).pos.x - d.sizeX),
             d.boundForce (-(state.state.getD i default).pos.y)
               - d.boundForce ((state.state.getD i default).pos.y - d.sizeY)⟩ : Vector2D)
        + ⟨0, d.gravity * ∑ i in Finset.range d.particles.length,
            (d.particles.getD i default).mass⟩) ∧
    (d.gravity = 0 →
      (∀ i, i < d.particles.length →
        0 ≤ (state.state.getD i default).pos.x ∧
        (state.state.getD i default).pos.x ≤ d.sizeX ∧
        0 ≤ (state.state.getD i default).pos.y ∧
        (state.state.getD i default).pos.y ≤ d.sizeY) →
      ∑ i in Finset.range d.particles.length, (d.accumulateForces cf state).getD i 0 = 0 ∧
      ∃ der, d.derivative cf state = some der ∧
        ∑ i in Finset.range d.particles.length,
          (der.state.getD i default).v * (d.particles.getD i default).mass = 0) := by
  refine ⟨accumulateForces_sum d cf state, ?_⟩
  intro hg hbox
  have hzero : ∑ i in Finset.range d.particles.length,
      (d.accumulateForces cf state).getD i 0 = 0 := by
    rw [accumulateForces_sum, hg, zero_mul]
    have hw : ∀ i ∈ Finset.range d.particles.length,
        (⟨d.boundForce (-(state.state.getD i default).pos.x)
             - d.boundForce ((state.state.getD i default).pos.x - d.sizeX),
           d.boundForce (-(state.state.getD i default).pos.y)
             - d.boundForce ((state.state.getD i default).pos.y - d.sizeY)⟩ : Vector2D)
          = 0 := by
      intro i hi
      obtain ⟨b1, b2, b3, b4⟩ := hbox i (Finset.mem_range.mp hi)
      rw [boundForce_of_nonpos d (by linarith : -(state.state.getD i default).pos.x ≤ 0),
        boundForce_of_nonpos d (by linarith : (state.state.getD i default).pos.x - d.sizeX ≤ 0),
        boundForce_of_nonpos d (by linarith : -(state.state.getD i default).pos.y ≤ 0),
        boundForce_of_nonpos d (by linarith : (state.state.getD i default).pos.y - d.sizeY ≤ 0)]
      ext <;> simp
    rw [Finset.sum_eq_zero hw]
    ext <;> simp
  refine ⟨hzero, ?_⟩
  have hder : d.derivative cf state = some ⟨(List.range d.particles.length).map (fun i =>
      (d.particles.getD i default).derivative (state.state.getD i default)
        ((d.accumulateForces cf state).getD i 0))⟩ := by
    simp only [UniverseDifferentiator.derivative, if_pos h.ge]
  refine ⟨_, hder, ?_⟩
  refine Eq.trans ?_ hzero
  apply Finset.sum_congr rfl
  intro i hi
  have hi1 : i < d.particles.length := Finset.mem_range.mp hi
  have hmass : (d.particles.getD i default).mass ≠ 0 := by
    have hmem : d.particles.getD i default ∈ d.particles := by
      rw [List.getD_eq_getElem _ _ hi1]
      exact List.getElem_mem hi1
    exact ne_of_gt (hm _ hmem)
  rw [List.getD_eq_getElem?_getD, List.getElem?_map, List.getElem?_range hi1]
  simp only [Option.map_some', Option.getD_some, ParticleType.derivative]
  exact vector_div_mul_cancel _ _ hmass

/-- Witness for C19: two particles inside a world of size 10 x 10 without
gravity, under the pair force `a.pos - b.pos`: the accumulated forces sum to
zero. -/
theorem C19_momentum_witness :
    ∑ i in Finset.range 2,
      (UniverseDifferentiator.accumulateForces
        ⟨10, 10, 1, 0, [⟨"a", 1, 1, 1, 0, 5⟩, ⟨"b", 2, 1, 1, 0, 5⟩]⟩
        (fun _ _ a b => a.pos - b.pos) ⟨[⟨⟨1, 1⟩, 0⟩, ⟨⟨4, 5⟩, 0⟩]⟩).getD i 0 = 0 :=
  ((C19_momentum ⟨10, 10, 1, 0, [⟨"a", 1, 1, 1, 0, 5⟩, ⟨"b", 2, 1, 1, 0, 5⟩]⟩
    (fun _ _ a b => a.pos - b.pos) ⟨[⟨⟨1, 1⟩, 0⟩, ⟨⟨4, 5⟩, 0⟩]⟩ rfl
    (by
      intro t ht
      simp only [List.mem_cons, List.mem_singleton, List.not_mem_nil, or_false] at ht
      rcases ht with rfl | rfl <;> norm_num)).2 rfl
    (by
      intro i hi
      have hi2 : i < 2 := hi
      interval_cases i <;> norm_num)).1

end PhaseTransition
